import Mathlib

/-!
A formal model of the `FileIndexer` component (db/file_indexer.cc) of a
leveled LSM storage engine, together with proofs about its index-building
merge passes and its hint-resolution query path.

Modelling choices (shallow embedding of the C++ source):
* user keys are `Int`, and the injected comparator `ucmp_->Compare` is the
  standard three-way comparison on `Int`;
* `std::vector` becomes `List`; positional reads use `List.getD` and
  positional writes use `List.set`, which matches the always-in-bounds
  accesses of the source;
* the two-pointer merge loops of `CalculateLB` / `CalculateRB` become
  structural recursion on an explicit iteration budget (`fuel`).  Every
  loop iteration strictly decreases the combined distance of the two
  cursors to the ends of the two sequences, so the budget
  `upper.length + lower.length` passed by the wrappers is never exhausted;
* the model assumes `num_levels ≥ 1` where the C++ would otherwise
  underflow the unsigned arithmetic `num_levels_ - 1` (all claims below
  concern `num_levels ≥ 3`).
-/

/-- Three-way comparison of integer user keys, the model of
`ucmp_->Compare(a, b)`: negative, zero or positive sign. -/
def cmpInt (a b : Int) : Int :=
  if a < b then -1 else if b < a then 1 else 0

/-- The slice of `FileMetaData` relevant to the indexer: the `smallest`
and `largest` user keys of one file. -/
structure FileMeta where
  smallest : Int
  largest : Int
deriving DecidableEq

instance : Inhabited FileMeta := ⟨⟨0, 0⟩⟩

/-- One hint record per file (`IndexUnit` of db/file_indexer.h): four
offsets into the next level's file sequence.  Default-constructed field
values are never observed by queries: every slot of a built level is
fully overwritten by the four merge passes. -/
@[ext] structure IndexUnit where
  smallest_lb : Int
  largest_lb : Int
  smallest_rb : Int
  largest_rb : Int
deriving DecidableEq

instance : Inhabited IndexUnit := ⟨⟨0, 0, 0, 0⟩⟩

/-- The merge loop of `FileIndexer::CalculateLB`.  Cursors `ui` (upper)
and `li` (lower) move forward; on `cmp == 0` assign `li` and advance
both, on `cmp > 0` advance only `li`, on `cmp < 0` assign `li` and
advance only `ui`.  Once the lower sequence is exhausted, every
remaining upper file is assigned `lower.length` (the second `while` of
the source).  `fuel` bounds the number of iterations. -/
def calcLBAux (cmp : FileMeta → FileMeta → Int) (upd : IndexUnit → Int → IndexUnit)
    (upper lower : List FileMeta) :
    Nat → Nat → Nat → List IndexUnit → List IndexUnit
  | 0, _, _, index => index
  | fuel + 1, ui, li, index =>
    if ui < upper.length then
      if li < lower.length then
        if cmp (upper.getD ui default) (lower.getD li default) = 0 then
          calcLBAux cmp upd upper lower fuel (ui + 1) (li + 1)
            (index.set ui (upd (index.getD ui default) (li : Int)))
        else if 0 < cmp (upper.getD ui default) (lower.getD li default) then
          calcLBAux cmp upd upper lower fuel ui (li + 1) index
        else
          calcLBAux cmp upd upper lower fuel (ui + 1) li
            (index.set ui (upd (index.getD ui default) (li : Int)))
      else
        calcLBAux cmp upd upper lower fuel (ui + 1) li
          (index.set ui (upd (index.getD ui default) (lower.length : Int)))
    else index

/-- `FileIndexer::CalculateLB`: run the forward merge from both
beginnings with enough fuel for the loop to run to completion. -/
def calcLB (cmp : FileMeta → FileMeta → Int) (upd : IndexUnit → Int → IndexUnit)
    (upper lower : List FileMeta) (index : List IndexUnit) : List IndexUnit :=
  calcLBAux cmp upd upper lower (upper.length + lower.length) 0 0 index

/-- The merge loop of `FileIndexer::CalculateRB`.  The source iterates
`upper_idx`/`lower_idx` from the last position down to `-1`; here
`uj`/`lj` are those cursors shifted up by one (`uj = upper_idx + 1`), so
position `uj - 1` is inspected and `uj = 0` means the cursor is done.
On `cmp == 0` assign and decrement both, on `cmp < 0` decrement only the
lower cursor, otherwise assign and decrement only the upper cursor; when
the lower sequence is exhausted every remaining upper file is assigned
`-1` (the second `while` of the source). -/
def calcRBAux (cmp : FileMeta → FileMeta → Int) (upd : IndexUnit → Int → IndexUnit)
    (upper lower : List FileMeta) :
    Nat → Nat → Nat → List IndexUnit → List IndexUnit
  | 0, _, _, index => index
  | fuel + 1, uj, lj, index =>
    if uj = 0 then index
    else if lj = 0 then
      calcRBAux cmp upd upper lower fuel (uj - 1) 0
        (index.set (uj - 1) (upd (index.getD (uj - 1) default) (-1)))
    else
      if cmp (upper.getD (uj - 1) default) (lower.getD (lj - 1) default) = 0 then
        calcRBAux cmp upd upper lower fuel (uj - 1) (lj - 1)
          (index.set (uj - 1) (upd (index.getD (uj - 1) default) ((lj - 1 : Nat) : Int)))
      else if cmp (upper.getD (uj - 1) default) (lower.getD (lj - 1) default) < 0 then
        calcRBAux cmp upd upper lower fuel uj (lj - 1) index
      else
        calcRBAux cmp upd upper lower fuel (uj - 1) lj
          (index.set (uj - 1) (upd (index.getD (uj - 1) default) ((lj - 1 : Nat) : Int)))

/-- `FileIndexer::CalculateRB`: run the backward merge from both ends
with enough fuel for the loop to run to completion. -/
def calcRB (cmp : FileMeta → FileMeta → Int) (upd : IndexUnit → Int → IndexUnit)
    (upper lower : List FileMeta) (index : List IndexUnit) : List IndexUnit :=
  calcRBAux cmp upd upper lower (upper.length + lower.length) upper.length lower.length index

/-- Model of `std::vector::resize(n)` on a hint sequence: keep the first
`n` entries and default-construct the rest. -/
def resizeIndex (old : List IndexUnit) (n : Nat) : List IndexUnit :=
  old.take n ++ List.replicate (n - old.length) default

/-- The body of one iteration of the level loop of
`FileIndexer::UpdateIndex` once a level is known non-empty: resize the
level's hint sequence and run the four merge passes, each with the
comparison and field-assignment closures of the source. -/
def updateOneLevel (upper lower : List FileMeta) (old : List IndexUnit) : List IndexUnit :=
  let index0 := resizeIndex old upper.length
  let index1 := calcLB (fun a b => cmpInt a.smallest b.largest)
    (fun u v => { u with smallest_lb := v }) upper lower index0
  let index2 := calcLB (fun a b => cmpInt a.largest b.largest)
    (fun u v => { u with largest_lb := v }) upper lower index1
  let index3 := calcRB (fun a b => cmpInt a.smallest b.smallest)
    (fun u v => { u with smallest_rb := v }) upper lower index2
  calcRB (fun a b => cmpInt a.largest b.smallest)
    (fun u v => { u with largest_rb := v }) upper lower index3

/-- The state of a `FileIndexer`: the level count, one hint sequence per
level (`next_level_index_`) and one bound-cache entry per level
(`level_rb_`). -/
structure FileIndexer where
  num_levels : Nat
  next_level_index : List (List IndexUnit)
  level_rb : List Int
deriving DecidableEq

/-- The constructor `FileIndexer(num_levels, ucmp)`: every level starts
with an empty hint sequence and a bound-cache entry of `-1`. -/
def FileIndexer.init (num_levels : Nat) : FileIndexer :=
  { num_levels := num_levels
    next_level_index := List.replicate num_levels []
    level_rb := List.replicate num_levels (-1) }

/-- `FileIndexer::NumLevelIndex`. -/
def FileIndexer.numLevelIndex (s : FileIndexer) : Nat :=
  s.next_level_index.length

/-- `FileIndexer::LevelIndexSize`: the number of hint records currently
stored for `level`. -/
def FileIndexer.levelIndexSize (s : FileIndexer) (level : Nat) : Nat :=
  (s.next_level_index.getD level []).length

/-- `FileIndexer::ClearIndex`: the loop `for level = 1; level < num_levels`
clearing each level's hint sequence.  Level 0 and the bound caches are
not touched. -/
def FileIndexer.clearIndex (s : FileIndexer) : FileIndexer :=
  let nli := (List.range' 1 (s.num_levels - 1)).foldl
    (fun nli level => nli.set level []) s.next_level_index
  { s with next_level_index := nli }

/-- One iteration of the level loop of `FileIndexer::UpdateIndex` for a
given `level`: record `level_rb[level] = upper.length - 1`, then, unless
the level is empty (`continue`), rebuild the level's hint sequence. -/
def updateStep (fs : List (List FileMeta)) (st : FileIndexer) (level : Nat) : FileIndexer :=
  let upper := fs.getD level []
  let st1 := { st with level_rb := st.level_rb.set level ((upper.length : Int) - 1) }
  if upper.length = 0 then st1
  else
    let nli := st1.next_level_index.set level
      (updateOneLevel upper (fs.getD (level + 1) []) (st1.next_level_index.getD level []))
    { st1 with next_level_index := nli }

/-- `FileIndexer::UpdateIndex`: a null file-list argument returns at
once; otherwise the level loop runs for levels `1 .. num_levels - 2` and
finally `level_rb[num_levels - 1]` is recorded. -/
def FileIndexer.updateIndex (s : FileIndexer) (files : Option (List (List FileMeta))) :
    FileIndexer :=
  match files with
  | none => s
  | some fs =>
    let s1 := (List.range' 1 (s.num_levels - 2)).foldl (updateStep fs) s
    let rb := s1.level_rb.set (s.num_levels - 1) (((fs.getD (s.num_levels - 1) []).length : Int) - 1)
    { s1 with level_rb := rb }

/-- `FileIndexer::GetNextLevelIndex`: resolve the search range at the
next level for the file at `(level, file_index)` given the signs of the
target key's comparisons with that file's smallest and largest keys.
The final branch corresponds to `assert(false)` in the source and is
unreachable (the five guarded branches cover all sign combinations). -/
def FileIndexer.getNextLevelIndex (s : FileIndexer) (level file_index : Nat)
    (cmp_smallest cmp_largest : Int) : Int × Int :=
  if level = s.num_levels - 1 then (0, -1)
  else
    let index := (s.next_level_index.getD level []).getD file_index default
    if cmp_smallest < 0 then
      ((if 0 < level ∧ 0 < file_index then
          ((s.next_level_index.getD level []).getD (file_index - 1) default).largest_lb
        else 0),
       index.smallest_rb)
    else if cmp_smallest = 0 then
      (index.smallest_lb, index.smallest_rb)
    else if 0 < cmp_smallest ∧ cmp_largest < 0 then
      (index.smallest_lb, index.largest_rb)
    else if cmp_largest = 0 then
      (index.largest_lb, index.largest_rb)
    else if 0 < cmp_largest then
      (index.largest_lb, s.level_rb.getD (level + 1) (-1))
    else (0, 0)

/-- A fresh build: construct the indexer and run `UpdateIndex` on the
given per-level file lists (the copy-on-rebuild lifecycle). -/
def buildIndexer (numLevels : Nat) (files : List (List FileMeta)) : FileIndexer :=
  (FileIndexer.init numLevels).updateIndex (some files)

/-- The index of the first entry of `b` that is `≥ a`, or `b.length` if
there is none: the value the forward merge pass records for an upper key
`a` against the lower key sequence `b`. -/
def lbVal (a : Int) (b : List Int) : Int :=
  match b with
  | [] => 0
  | x :: xs => if a ≤ x then 0 else lbVal a xs + 1

/-- The index of the last entry of `b` that is `≤ a`, or `-1` if there
is none: the value the backward merge pass records for an upper key `a`
against the lower key sequence `b`. -/
def rbVal (a : Int) (b : List Int) : Int :=
  match b with
  | [] => -1
  | x :: xs => if 0 ≤ rbVal a xs then rbVal a xs + 1 else if x ≤ a then 0 else -1

/-- The hint record a build produces for an upper file against the file
sequence of the next level down. -/
def hintOf (f : FileMeta) (lower : List FileMeta) : IndexUnit :=
  { smallest_lb := lbVal f.smallest (lower.map FileMeta.largest)
    largest_lb := lbVal f.largest (lower.map FileMeta.largest)
    smallest_rb := rbVal f.smallest (lower.map FileMeta.smallest)
    largest_rb := rbVal f.largest (lower.map FileMeta.smallest) }

/-- A level's file list is sorted ascending and non-overlapping: each
file's keys are ordered and each file ends strictly before the next one
starts. -/
def sortedDisjoint (fs : List FileMeta) : Prop :=
  (∀ i, i < fs.length → (fs.getD i default).smallest ≤ (fs.getD i default).largest) ∧
    ∀ i, i < fs.length - 1 →
      (fs.getD i default).largest < (fs.getD (i + 1) default).smallest

instance (fs : List FileMeta) : Decidable (sortedDisjoint fs) :=
  inferInstanceAs (Decidable (_ ∧ _))

/-- `v` is the smallest index `j` of `b` with `a ≤ b j`, or `b.length`
when no entry of `b` is `≥ a`. -/
def IsLeastGe (a : Int) (b : List Int) (v : Int) : Prop :=
  ((∀ j, j < b.length → b.getD j 0 < a) ∧ v = b.length) ∨
    (∃ jn : Nat, jn < b.length ∧ v = jn ∧ a ≤ b.getD jn 0 ∧
      ∀ m, m < jn → b.getD m 0 < a)

/-- `v` is the largest index `j` of `b` with `b j ≤ a`, or `-1` when no
entry of `b` is `≤ a`. -/
def IsGreatestLe (a : Int) (b : List Int) (v : Int) : Prop :=
  ((∀ j, j < b.length → a < b.getD j 0) ∧ v = -1) ∨
    (∃ jn : Nat, jn < b.length ∧ v = jn ∧ b.getD jn 0 ≤ a ∧
      ∀ m, jn < m → m < b.length → a < b.getD m 0)

/-! ## Helper lemmas on positional list access -/

theorem getD_set_self {α : Type} (l : List α) (u : Nat) (a d : α) (hu : u < l.length) :
    (l.set u a).getD u d = a := by
  induction l generalizing u with
  | nil => simp at hu
  | cons x xs ih =>
    cases u with
    | zero => simp [List.set, List.getD]
    | succ n =>
      simp only [List.set, List.length_cons] at *
      exact ih n (by omega)

theorem getD_set_ne {α : Type} (l : List α) (u v : Nat) (a d : α) (h : u ≠ v) :
    (l.set u a).getD v d = l.getD v d := by
  induction l generalizing u v with
  | nil => simp [List.set]
  | cons x xs ih =>
    cases u with
    | zero =>
      cases v with
      | zero => exact absurd rfl h
      | succ m => simp [List.set, List.getD]
    | succ n =>
      cases v with
      | zero => simp [List.set, List.getD]
      | succ m =>
        simp only [List.set, List.getD_cons_succ]
        exact ih n m (by omega)

theorem getD_of_le {α : Type} (l : List α) (m : Nat) (d : α) (h : l.length ≤ m) :
    l.getD m d = d := by
  induction l generalizing m with
  | nil => simp [List.getD]
  | cons x xs ih =>
    cases m with
    | zero => simp at h
    | succ n =>
      simp only [List.length_cons] at h
      simpa [List.getD_cons_succ] using ih n (by omega)

theorem getD_map_int (f : FileMeta → Int) (l : List FileMeta) (j : Nat)
    (hj : j < l.length) : (l.map f).getD j 0 = f (l.getD j default) := by
  induction l generalizing j with
  | nil => simp at hj
  | cons x xs ih =>
    cases j with
    | zero => simp [List.getD]
    | succ n =>
      simp only [List.map, List.getD_cons_succ, List.length_cons] at *
      exact ih n (by omega)

theorem drop_cons_getD {α : Type} [Inhabited α] (l : List α) (j : Nat) (hj : j < l.length) :
    l.drop j = l.getD j default :: l.drop (j + 1) := by
  induction l generalizing j with
  | nil => simp at hj
  | cons x xs ih =>
    cases j with
    | zero => simp [List.getD]
    | succ n =>
      simp only [List.length_cons] at hj
      simpa [List.getD_cons_succ] using ih n (by omega)

theorem take_snoc_getD {α : Type} [Inhabited α] (l : List α) (j : Nat) (hj : j < l.length) :
    l.take (j + 1) = l.take j ++ [l.getD j default] := by
  induction l generalizing j with
  | nil => simp at hj
  | cons x xs ih =>
    cases j with
    | zero => simp [List.getD]
    | succ n =>
      simp only [List.length_cons] at hj
      simp only [List.take, List.getD_cons_succ, List.cons_append]
      rw [ih n (by omega)]

theorem list_eq_of_getD {α : Type} (l1 l2 : List α) (d : α) (hlen : l1.length = l2.length)
    (h : ∀ m, m < l1.length → l1.getD m d = l2.getD m d) : l1 = l2 := by
  induction l1 generalizing l2 with
  | nil => cases l2 with
    | nil => rfl
    | cons y ys => simp at hlen
  | cons x xs ih =>
    cases l2 with
    | nil => simp at hlen
    | cons y ys =>
      simp only [List.length_cons] at hlen
      have h0 := h 0 (by simp)
      have hrest : xs = ys := ih ys (by omega) (fun m hm => by
        have hm1 := h (m + 1) (by simp only [List.length_cons]; omega)
        simpa [List.getD_cons_succ] using hm1)
      simp only [List.getD_cons_zero] at h0
      rw [h0, hrest]

theorem getD_replicate {α : Type} (n : Nat) (a d : α) (m : Nat) (hm : m < n) :
    (List.replicate n a).getD m d = a := by
  induction n generalizing m with
  | zero => simp at hm
  | succ k ih =>
    cases m with
    | zero => simp [List.replicate, List.getD]
    | succ j =>
      simp only [List.replicate, List.getD_cons_succ]
      exact ih j (by omega)

theorem resizeIndex_length (old : List IndexUnit) (n : Nat) :
    (resizeIndex old n).length = n := by
  simp only [resizeIndex, List.length_append, List.length_take, List.length_replicate]
  omega

/-! ## Properties of the merge-pass value functions `lbVal` and `rbVal` -/

theorem lbVal_nonneg (a : Int) (b : List Int) : 0 ≤ lbVal a b := by
  induction b with
  | nil => simp [lbVal]
  | cons x xs ih =>
    simp only [lbVal]
    split
    · omega
    · omega

theorem lbVal_le_length (a : Int) (b : List Int) : lbVal a b ≤ b.length := by
  induction b with
  | nil => simp [lbVal]
  | cons x xs ih =>
    simp only [lbVal, List.length_cons]
    split
    · push_cast; omega
    · push_cast; push_cast at ih; omega

theorem lbVal_isLeastGe (a : Int) (b : List Int) : IsLeastGe a b (lbVal a b) := by
  induction b with
  | nil =>
    left
    exact ⟨fun j hj => by simp at hj, by simp [lbVal]⟩
  | cons x xs ih =>
    by_cases hx : a ≤ x
    · right
      refine ⟨0, by simp, by simp [lbVal, hx], by simpa [List.getD] using hx, ?_⟩
      intro m hm; omega
    · rcases ih with ⟨hall, hv⟩ | ⟨jn, hjn, hv, hge, hmin⟩
      · left
        constructor
        · intro j hj
          cases j with
          | zero => simpa [List.getD] using by omega
          | succ m =>
            simp only [List.getD_cons_succ]
            exact hall m (by simp at hj; omega)
        · simp only [lbVal, if_neg hx, hv, List.length_cons]
          push_cast; omega
      · right
        refine ⟨jn + 1, by simp; omega, ?_, by simpa [List.getD_cons_succ] using hge, ?_⟩
        · simp only [lbVal, if_neg hx, hv]; push_cast; omega
        · intro m hm
          cases m with
          | zero => simpa [List.getD] using by omega
          | succ i => simpa [List.getD_cons_succ] using hmin i (by omega)

theorem lbVal_le_of_ge (a : Int) (b : List Int) (j : Nat) (hj : j < b.length)
    (h : a ≤ b.getD j 0) : lbVal a b ≤ j := by
  rcases lbVal_isLeastGe a b with ⟨hall, _⟩ | ⟨jn, hjn, hv, _, hmin⟩
  · exact absurd h (by exact not_le.mpr (hall j hj))
  · by_cases hlt : j < jn
    · exact absurd h (not_le.mpr (hmin j hlt))
    · rw [hv]; omega

theorem lbVal_lt_elem (a : Int) (b : List Int) (m : Nat) (hm : (m : Int) < lbVal a b)
    (hmb : m < b.length) : b.getD m 0 < a := by
  rcases lbVal_isLeastGe a b with ⟨hall, _⟩ | ⟨jn, hjn, hv, _, hmin⟩
  · exact hall m hmb
  · exact hmin m (by omega)

theorem lbVal_mono (a a' : Int) (b : List Int) (h : a ≤ a') :
    lbVal a b ≤ lbVal a' b := by
  induction b with
  | nil => simp [lbVal]
  | cons x xs ih =>
    simp only [lbVal]
    by_cases h1 : a ≤ x
    · rw [if_pos h1]
      split
      · omega
      · have := lbVal_nonneg a' xs; omega
    · rw [if_neg h1, if_neg (by omega)]
      omega

theorem rbVal_ge_neg_one (a : Int) (b : List Int) : -1 ≤ rbVal a b := by
  induction b with
  | nil => simp [rbVal]
  | cons x xs ih =>
    simp only [rbVal]
    split
    · omega
    · split <;> omega

theorem rbVal_lt_length (a : Int) (b : List Int) : rbVal a b < b.length := by
  induction b with
  | nil => simp [rbVal]
  | cons x xs ih =>
    simp only [rbVal, List.length_cons]
    split
    · push_cast; push_cast at ih; omega
    · split <;> (push_cast; omega)

theorem rbVal_ge_of_le (a : Int) (b : List Int) (j : Nat) (hj : j < b.length)
    (h : b.getD j 0 ≤ a) : (j : Int) ≤ rbVal a b := by
  induction b generalizing j with
  | nil => simp at hj
  | cons x xs ih =>
    cases j with
    | zero =>
      simp only [List.getD_cons_zero] at h
      simp only [rbVal]
      split
      · omega
      · simp [h]
    | succ m =>
      simp only [List.getD_cons_succ] at h
      simp only [List.length_cons] at hj
      have hm := ih m (by omega) h
      simp only [rbVal]
      rw [if_pos (by omega)]
      push_cast; omega

theorem rbVal_isGreatestLe (a : Int) (b : List Int) : IsGreatestLe a b (rbVal a b) := by
  induction b with
  | nil =>
    left
    exact ⟨fun j hj => by simp at hj, by simp [rbVal]⟩
  | cons x xs ih =>
    rcases ih with ⟨hall, hv⟩ | ⟨jn, hjn, hv, hle, hmax⟩
    · by_cases hx : x ≤ a
      · right
        refine ⟨0, by simp, ?_, by simpa [List.getD] using hx, ?_⟩
        · simp only [rbVal, hv]
          rw [if_neg (by omega), if_pos hx]
          norm_num
        · intro m hm0 hmlen
          cases m with
          | zero => omega
          | succ i =>
            simp only [List.getD_cons_succ]
            exact hall i (by simp at hmlen; omega)
      · left
        constructor
        · intro j hj
          cases j with
          | zero => simpa [List.getD] using by omega
          | succ i =>
            simp only [List.getD_cons_succ]
            exact hall i (by simp at hj; omega)
        · simp only [rbVal, hv]
          rw [if_neg (by omega), if_neg hx]
    · right
      refine ⟨jn + 1, by simp; omega, ?_, by simpa [List.getD_cons_succ] using hle, ?_⟩
      · simp only [rbVal, hv]
        rw [if_pos (by omega)]
        push_cast; omega
      · intro m hm0 hmlen
        cases m with
        | zero => omega
        | succ i =>
          simp only [List.getD_cons_succ]
          exact hmax i (by omega) (by simp at hmlen; omega)

theorem rbVal_gt_elem (a : Int) (b : List Int) (m : Nat) (hm : rbVal a b < (m : Int))
    (hmb : m < b.length) : a < b.getD m 0 := by
  rcases rbVal_isGreatestLe a b with ⟨hall, _⟩ | ⟨jn, hjn, hv, _, hmax⟩
  · exact hall m hmb
  · exact hmax m (by omega) hmb

theorem rbVal_mono (a a' : Int) (b : List Int) (h : a ≤ a') :
    rbVal a b ≤ rbVal a' b := by
  induction b with
  | nil => simp [rbVal]
  | cons x xs ih =>
    simp only [rbVal]
    by_cases h1 : 0 ≤ rbVal a xs
    · rw [if_pos h1, if_pos (by omega)]
      omega
    · rw [if_neg h1]
      by_cases h2 : 0 ≤ rbVal a' xs
      · rw [if_pos h2]
        split <;> omega
      · rw [if_neg h2]
        by_cases h3 : x ≤ a
        · rw [if_pos h3, if_pos (by omega)]
        · rw [if_neg h3]
          split <;> omega

theorem rbVal_snoc (a x : Int) (b : List Int) :
    rbVal a (b ++ [x]) = if x ≤ a then (b.length : Int) else rbVal a b := by
  induction b with
  | nil =>
    by_cases hx : x ≤ a <;> simp [rbVal, hx]
  | cons y ys ih =>
    by_cases hx : x ≤ a
    · simp only [List.cons_append, rbVal, List.append_eq, ih, if_pos hx, List.length_cons]
      rw [if_pos (by positivity : (0 : Int) ≤ (ys.length : Int))]
      push_cast
      omega
    · simp only [List.cons_append, rbVal, List.append_eq, ih, if_neg hx, List.length_cons]

theorem lbVal_le_rbVal_succ (fs : List FileMeta) (a a' : Int) (haa : a ≤ a')
    (hwf : ∀ i, i < fs.length →
      (fs.getD i default).smallest ≤ (fs.getD i default).largest) :
    lbVal a (fs.map FileMeta.largest) ≤ rbVal a' (fs.map FileMeta.smallest) + 1 := by
  have hrb := rbVal_ge_neg_one a' (fs.map FileMeta.smallest)
  by_cases h0 : lbVal a (fs.map FileMeta.largest) ≤ 0
  · omega
  · have hlen := lbVal_le_length a (fs.map FileMeta.largest)
    simp only [List.length_map] at hlen
    have hnn := lbVal_nonneg a (fs.map FileMeta.largest)
    obtain ⟨m, hm⟩ : ∃ m : Nat, (m : Int) = lbVal a (fs.map FileMeta.largest) - 1 :=
      ⟨(lbVal a (fs.map FileMeta.largest) - 1).toNat, by omega⟩
    have hmlen : m < fs.length := by omega
    have hlt : (fs.map FileMeta.largest).getD m 0 < a := by
      apply lbVal_lt_elem a _ m (by omega)
      simpa using hmlen
    rw [getD_map_int _ _ _ hmlen] at hlt
    have hsm : (fs.map FileMeta.smallest).getD m 0 ≤ a' := by
      rw [getD_map_int _ _ _ hmlen]
      have := hwf m hmlen
      omega
    have := rbVal_ge_of_le a' (fs.map FileMeta.smallest) m (by simpa using hmlen) hsm
    omega

/-! ## Basic facts about the comparator and strictly increasing key chains -/

theorem cmpInt_eq_zero_iff (a b : Int) : cmpInt a b = 0 ↔ a = b := by
  unfold cmpInt
  split_ifs <;> norm_num <;> omega

theorem cmpInt_pos_iff (a b : Int) : 0 < cmpInt a b ↔ b < a := by
  unfold cmpInt
  split_ifs <;> norm_num <;> omega

theorem cmpInt_neg_iff (a b : Int) : cmpInt a b < 0 ↔ a < b := by
  unfold cmpInt
  split_ifs <;> norm_num <;> omega

theorem chain_lt_of_lt (f : Nat → Int) (lo n : Nat)
    (h : ∀ m, lo ≤ m → m + 1 < n → f m < f (m + 1)) :
    ∀ m1 m2, lo ≤ m1 → m1 < m2 → m2 < n → f m1 < f m2 := by
  intro m1 m2 h1 h2 h3
  induction m2 with
  | zero => omega
  | succ k ih =>
    by_cases hk : m1 = k
    · subst hk
      exact h m1 h1 (by omega)
    · have hik := ih (by omega) (by omega)
      have hkk := h k (by omega) (by omega)
      omega

theorem chain_le_of_le (f : Nat → Int) (lo n : Nat)
    (h : ∀ m, lo ≤ m → m + 1 < n → f m < f (m + 1)) :
    ∀ m1 m2, lo ≤ m1 → m1 ≤ m2 → m2 < n → f m1 ≤ f m2 := by
  intro m1 m2 h1 h2 h3
  rcases Nat.eq_or_lt_of_le h2 with he | hlt
  · rw [he]
  · exact le_of_lt (chain_lt_of_lt f lo n h m1 m2 h1 hlt h3)

/-! ## Structural lemmas about the two merge loops -/

theorem calcLBAux_length (cmp : FileMeta → FileMeta → Int) (upd : IndexUnit → Int → IndexUnit)
    (upper lower : List FileMeta) (fuel : Nat) :
    ∀ ui li index, (calcLBAux cmp upd upper lower fuel ui li index).length = index.length := by
  induction fuel with
  | zero => intro ui li index; rfl
  | succ n ih =>
    intro ui li index
    simp only [calcLBAux]
    split_ifs <;> simp [ih, List.length_set]

theorem calcRBAux_length (cmp : FileMeta → FileMeta → Int) (upd : IndexUnit → Int → IndexUnit)
    (upper lower : List FileMeta) (fuel : Nat) :
    ∀ uj lj index, (calcRBAux cmp upd upper lower fuel uj lj index).length = index.length := by
  induction fuel with
  | zero => intro uj lj index; rfl
  | succ n ih =>
    intro uj lj index
    simp only [calcRBAux]
    split_ifs <;> simp [ih, List.length_set]

theorem calcLBAux_getD_lt (cmp : FileMeta → FileMeta → Int) (upd : IndexUnit → Int → IndexUnit)
    (upper lower : List FileMeta) (fuel : Nat) :
    ∀ ui li index i, i < ui →
      (calcLBAux cmp upd upper lower fuel ui li index).getD i default =
        index.getD i default := by
  induction fuel with
  | zero => intro ui li index i hi; rfl
  | succ n ih =>
    intro ui li index i hi
    simp only [calcLBAux]
    split_ifs
    · rw [ih _ _ _ i (by omega), getD_set_ne _ _ _ _ _ (by omega)]
    · rw [ih _ _ _ i hi]
    · rw [ih _ _ _ i (by omega), getD_set_ne _ _ _ _ _ (by omega)]
    · rw [ih _ _ _ i (by omega), getD_set_ne _ _ _ _ _ (by omega)]
    · rfl

theorem calcRBAux_getD_ge (cmp : FileMeta → FileMeta → Int) (upd : IndexUnit → Int → IndexUnit)
    (upper lower : List FileMeta) (fuel : Nat) :
    ∀ uj lj index i, uj ≤ i →
      (calcRBAux cmp upd upper lower fuel uj lj index).getD i default =
        index.getD i default := by
  induction fuel with
  | zero => intro uj lj index i hi; rfl
  | succ n ih =>
    intro uj lj index i hi
    simp only [calcRBAux]
    split_ifs with h1 h2 h3 h4
    · rfl
    · rw [ih _ _ _ i (by omega), getD_set_ne _ _ _ _ _ (by omega)]
    · rw [ih _ _ _ i (by omega), getD_set_ne _ _ _ _ _ (by omega)]
    · rw [ih _ _ _ i hi]
    · rw [ih _ _ _ i (by omega), getD_set_ne _ _ _ _ _ (by omega)]

theorem set_of_length_le {α : Type} (l : List α) (n : Nat) (a : α) (h : l.length ≤ n) :
    l.set n a = l := by
  induction l generalizing n with
  | nil => rfl
  | cons x xs ih =>
    cases n with
    | zero => simp at h
    | succ m =>
      simp only [List.set, List.length_cons] at *
      rw [ih m (by omega)]

theorem getD_set_upd_pres (index : List IndexUnit) (ui : Nat) (e : IndexUnit) (i : Nat)
    (g : IndexUnit → Int) (hge : g e = g (index.getD ui default)) :
    g ((index.set ui e).getD i default) = g (index.getD i default) := by
  by_cases hi : ui = i
  · subst hi
    by_cases hl : ui < index.length
    · rw [getD_set_self _ _ _ _ hl, hge]
    · rw [set_of_length_le _ _ _ (by omega)]
  · rw [getD_set_ne _ _ _ _ _ hi]

theorem calcLBAux_pres (cmp : FileMeta → FileMeta → Int) (upd : IndexUnit → Int → IndexUnit)
    (g : IndexUnit → Int) (hg : ∀ u v, g (upd u v) = g u)
    (upper lower : List FileMeta) (fuel : Nat) :
    ∀ ui li index i,
      g ((calcLBAux cmp upd upper lower fuel ui li index).getD i default) =
        g (index.getD i default) := by
  induction fuel with
  | zero => intros; rfl
  | succ n ih =>
    intro ui li index i
    simp only [calcLBAux]
    split_ifs
    · rw [ih]
      exact getD_set_upd_pres _ _ _ _ g (hg _ _)
    · rw [ih]
    · rw [ih]
      exact getD_set_upd_pres _ _ _ _ g (hg _ _)
    · rw [ih]
      exact getD_set_upd_pres _ _ _ _ g (hg _ _)
    · rfl

theorem calcRBAux_pres (cmp : FileMeta → FileMeta → Int) (upd : IndexUnit → Int → IndexUnit)
    (g : IndexUnit → Int) (hg : ∀ u v, g (upd u v) = g u)
    (upper lower : List FileMeta) (fuel : Nat) :
    ∀ uj lj index i,
      g ((calcRBAux cmp upd upper lower fuel uj lj index).getD i default) =
        g (index.getD i default) := by
  induction fuel with
  | zero => intros; rfl
  | succ n ih =>
    intro uj lj index i
    simp only [calcRBAux]
    split_ifs
    · rfl
    · rw [ih]
      exact getD_set_upd_pres _ _ _ _ g (hg _ _)
    · rw [ih]
      exact getD_set_upd_pres _ _ _ _ g (hg _ _)
    · rw [ih]
    · rw [ih]
      exact getD_set_upd_pres _ _ _ _ g (hg _ _)

theorem getD_set_field_eq (idx1 idx2 : List IndexUnit) (ui : Nat) (e1 e2 : IndexUnit)
    (g : IndexUnit → Int) (hlen : idx1.length = idx2.length) (hg : g e1 = g e2) :
    g ((idx1.set ui e1).getD ui default) = g ((idx2.set ui e2).getD ui default) := by
  by_cases hl : ui < idx1.length
  · rw [getD_set_self _ _ _ _ hl, getD_set_self _ _ _ _ (by omega), hg]
  · rw [set_of_length_le _ _ _ (by omega), set_of_length_le _ _ _ (by omega)]
    rw [getD_of_le _ _ _ (by omega), getD_of_le _ _ _ (by omega)]

theorem calcLBAux_field_ext (cmp : FileMeta → FileMeta → Int)
    (upd : IndexUnit → Int → IndexUnit) (g : IndexUnit → Int)
    (hg : ∀ u v, g (upd u v) = v) (upper lower : List FileMeta) (fuel : Nat) :
    ∀ ui li idx1 idx2,
      idx1.length = idx2.length →
      upper.length - ui + (lower.length - li) ≤ fuel →
      (∀ m, m < ui ∨ upper.length ≤ m →
        g (idx1.getD m default) = g (idx2.getD m default)) →
      ∀ i, g ((calcLBAux cmp upd upper lower fuel ui li idx1).getD i default) =
        g ((calcLBAux cmp upd upper lower fuel ui li idx2).getD i default) := by
  induction fuel with
  | zero =>
    intro ui li idx1 idx2 hlen hfuel hcov i
    exact hcov i (by omega)
  | succ n ih =>
    intro ui li idx1 idx2 hlen hfuel hcov i
    simp only [calcLBAux]
    split_ifs with h1 h2 h3 h4
    · refine ih (ui + 1) (li + 1) _ _ (by simp [List.length_set, hlen]) (by omega) ?_ i
      intro m hm
      by_cases hmu : m = ui
      · subst hmu
        exact getD_set_field_eq _ _ _ _ _ g hlen (by rw [hg, hg])
      · rw [getD_set_ne _ _ _ _ _ (by omega), getD_set_ne _ _ _ _ _ (by omega)]
        exact hcov m (by omega)
    · exact ih ui (li + 1) _ _ hlen (by omega) hcov i
    · refine ih (ui + 1) li _ _ (by simp [List.length_set, hlen]) (by omega) ?_ i
      intro m hm
      by_cases hmu : m = ui
      · subst hmu
        exact getD_set_field_eq _ _ _ _ _ g hlen (by rw [hg, hg])
      · rw [getD_set_ne _ _ _ _ _ (by omega), getD_set_ne _ _ _ _ _ (by omega)]
        exact hcov m (by omega)
    · refine ih (ui + 1) li _ _ (by simp [List.length_set, hlen]) (by omega) ?_ i
      intro m hm
      by_cases hmu : m = ui
      · subst hmu
        exact getD_set_field_eq _ _ _ _ _ g hlen (by rw [hg, hg])
      · rw [getD_set_ne _ _ _ _ _ (by omega), getD_set_ne _ _ _ _ _ (by omega)]
        exact hcov m (by omega)
    · exact hcov i (by omega)

theorem calcRBAux_field_ext (cmp : FileMeta → FileMeta → Int)
    (upd : IndexUnit → Int → IndexUnit) (g : IndexUnit → Int)
    (hg : ∀ u v, g (upd u v) = v) (upper lower : List FileMeta) (fuel : Nat) :
    ∀ uj lj idx1 idx2,
      idx1.length = idx2.length →
      uj + lj ≤ fuel →
      (∀ m, uj ≤ m → g (idx1.getD m default) = g (idx2.getD m default)) →
      ∀ i, g ((calcRBAux cmp upd upper lower fuel uj lj idx1).getD i default) =
        g ((calcRBAux cmp upd upper lower fuel uj lj idx2).getD i default) := by
  induction fuel with
  | zero =>
    intro uj lj idx1 idx2 hlen hfuel hcov i
    exact hcov i (by omega)
  | succ n ih =>
    intro uj lj idx1 idx2 hlen hfuel hcov i
    simp only [calcRBAux]
    split_ifs with h1 h2 h3 h4
    · exact hcov i (by omega)
    · refine ih (uj - 1) 0 _ _ (by simp [List.length_set, hlen]) (by omega) ?_ i
      intro m hm
      by_cases hmu : m = uj - 1
      · subst hmu
        exact getD_set_field_eq _ _ _ _ _ g hlen (by rw [hg, hg])
      · rw [getD_set_ne _ _ _ _ _ (by omega), getD_set_ne _ _ _ _ _ (by omega)]
        exact hcov m (by omega)
    · refine ih (uj - 1) (lj - 1) _ _ (by simp [List.length_set, hlen]) (by omega) ?_ i
      intro m hm
      by_cases hmu : m = uj - 1
      · subst hmu
        exact getD_set_field_eq _ _ _ _ _ g hlen (by rw [hg, hg])
      · rw [getD_set_ne _ _ _ _ _ (by omega), getD_set_ne _ _ _ _ _ (by omega)]
        exact hcov m (by omega)
    · exact ih uj (lj - 1) _ _ hlen (by omega) hcov i
    · refine ih (uj - 1) lj _ _ (by simp [List.length_set, hlen]) (by omega) ?_ i
      intro m hm
      by_cases hmu : m = uj - 1
      · subst hmu
        exact getD_set_field_eq _ _ _ _ _ g hlen (by rw [hg, hg])
      · rw [getD_set_ne _ _ _ _ _ (by omega), getD_set_ne _ _ _ _ _ (by omega)]
        exact hcov m (by omega)

theorem cmpInt_lt_of_not (a b : Int) (h3 : cmpInt a b ≠ 0) (h4 : ¬ 0 < cmpInt a b) :
    a < b := by
  unfold cmpInt at h3 h4
  split_ifs at h3 h4 <;> omega

theorem cmpInt_gt_of_not (a b : Int) (h3 : cmpInt a b ≠ 0) (h4 : ¬ cmpInt a b < 0) :
    b < a := by
  unfold cmpInt at h3 h4
  split_ifs at h3 h4 <;> omega

theorem drop_nil_of_le {α : Type} (l : List α) (n : Nat) (h : l.length ≤ n) :
    l.drop n = [] := by
  induction l generalizing n with
  | nil => simp
  | cons x xs ih =>
    cases n with
    | zero => simp at h
    | succ m =>
      simp only [List.drop, List.length_cons] at *
      exact ih m (by omega)

/-- The value assigned by a forward merge pass of `CalculateLB`: once the
loop state is `(ui, li)`, every upper position `i ≥ ui` receives
`li + lbVal key_i (drop li of the lower keys)`, provided the upper keys
are strictly increasing from `ui` on. -/
theorem calcLBAux_main (ku kl : FileMeta → Int) (upd : IndexUnit → Int → IndexUnit)
    (g : IndexUnit → Int) (hg : ∀ u v, g (upd u v) = v)
    (upper lower : List FileMeta) (fuel : Nat) :
    ∀ ui li index,
      index.length = upper.length →
      li ≤ lower.length →
      upper.length - ui + (lower.length - li) ≤ fuel →
      (∀ m, ui ≤ m → m + 1 < upper.length →
        ku (upper.getD m default) < ku (upper.getD (m + 1) default)) →
      ∀ i, ui ≤ i → i < upper.length →
        g ((calcLBAux (fun a b => cmpInt (ku a) (kl b)) upd upper lower fuel ui li
            index).getD i default) =
          (li : Int) + lbVal (ku (upper.getD i default)) ((lower.drop li).map kl) := by
  induction fuel with
  | zero =>
    intro ui li index hlen hli hfuel hchain i hui hi
    omega
  | succ n ih =>
    intro ui li index hlen hli hfuel hchain i hui hi
    simp only [calcLBAux]
    split_ifs with h1 h2 h3 h4
    · have hk : ku (upper.getD ui default) = kl (lower.getD li default) :=
        (cmpInt_eq_zero_iff _ _).mp h3
      have hdrop : lower.drop li = lower.getD li default :: lower.drop (li + 1) :=
        drop_cons_getD _ _ h2
      by_cases hieq : i = ui
      · subst hieq
        rw [calcLBAux_getD_lt _ _ _ _ n (i + 1) (li + 1) _ i (by omega)]
        rw [getD_set_self _ _ _ _ (by omega), hg]
        rw [hdrop]
        simp only [List.map_cons, lbVal]
        rw [if_pos (le_of_eq hk)]
        omega
      · rw [ih (ui + 1) (li + 1) _ (by simp [List.length_set, hlen]) (by omega) (by omega)
          (fun m hm hm2 => hchain m (by omega) hm2) i (by omega) hi]
        rw [hdrop]
        simp only [List.map_cons, lbVal]
        have hlt : ku (upper.getD ui default) < ku (upper.getD i default) :=
          chain_lt_of_lt (fun m => ku (upper.getD m default)) ui upper.length
            hchain ui i (le_refl ui) (by omega) hi
        rw [if_neg (by omega)]
        push_cast
        omega
    · have hk : kl (lower.getD li default) < ku (upper.getD ui default) :=
        (cmpInt_pos_iff _ _).mp h4
      rw [ih ui (li + 1) index hlen (by omega) (by omega) hchain i hui hi]
      have hdrop : lower.drop li = lower.getD li default :: lower.drop (li + 1) :=
        drop_cons_getD _ _ h2
      rw [hdrop]
      simp only [List.map_cons, lbVal]
      have hle : ku (upper.getD ui default) ≤ ku (upper.getD i default) :=
        chain_le_of_le (fun m => ku (upper.getD m default)) ui upper.length
          hchain ui i (le_refl ui) hui hi
      rw [if_neg (by omega)]
      push_cast
      omega
    · have hk : ku (upper.getD ui default) < kl (lower.getD li default) :=
        cmpInt_lt_of_not _ _ h3 h4
      by_cases hieq : i = ui
      · subst hieq
        rw [calcLBAux_getD_lt _ _ _ _ n (i + 1) li _ i (by omega)]
        rw [getD_set_self _ _ _ _ (by omega), hg]
        have hdrop : lower.drop li = lower.getD li default :: lower.drop (li + 1) :=
          drop_cons_getD _ _ h2
        rw [hdrop]
        simp only [List.map_cons, lbVal]
        rw [if_pos (le_of_lt hk)]
        omega
      · rw [ih (ui + 1) li _ (by simp [List.length_set, hlen]) hli (by omega)
          (fun m hm hm2 => hchain m (by omega) hm2) i (by omega) hi]
    · have hli0 : li = lower.length := by omega
      by_cases hieq : i = ui
      · subst hieq
        rw [calcLBAux_getD_lt _ _ _ _ n (i + 1) li _ i (by omega)]
        rw [getD_set_self _ _ _ _ (by omega), hg]
        rw [hli0, drop_nil_of_le _ _ (le_refl _)]
        simp [lbVal]
      · rw [ih (ui + 1) li _ (by simp [List.length_set, hlen]) hli (by omega)
          (fun m hm hm2 => hchain m (by omega) hm2) i (by omega) hi]
    · omega

/-- The value assigned by a backward merge pass of `CalculateRB`: once
the loop state is `(uj, lj)` (one-shifted cursors), every upper position
`i < uj` receives `rbVal key_i (take lj of the lower keys)`, provided
the upper keys are strictly increasing below `uj`. -/
theorem calcRBAux_main (ku kl : FileMeta → Int) (upd : IndexUnit → Int → IndexUnit)
    (g : IndexUnit → Int) (hg : ∀ u v, g (upd u v) = v)
    (upper lower : List FileMeta) (fuel : Nat) :
    ∀ uj lj index,
      index.length = upper.length →
      uj ≤ upper.length →
      lj ≤ lower.length →
      uj + lj ≤ fuel →
      (∀ m, m + 1 < uj →
        ku (upper.getD m default) < ku (upper.getD (m + 1) default)) →
      ∀ i, i < uj →
        g ((calcRBAux (fun a b => cmpInt (ku a) (kl b)) upd upper lower fuel uj lj
            index).getD i default) =
          rbVal (ku (upper.getD i default)) ((lower.take lj).map kl) := by
  induction fuel with
  | zero =>
    intro uj lj index hlen huj hlj hfuel hchain i hi
    omega
  | succ n ih =>
    intro uj lj index hlen huj hlj hfuel hchain i hi
    simp only [calcRBAux]
    split_ifs with h1 h2 h3 h4
    · omega
    · subst h2
      by_cases hieq : i = uj - 1
      · subst hieq
        rw [calcRBAux_getD_ge _ _ _ _ n (uj - 1) 0 _ (uj - 1) (le_refl _)]
        rw [getD_set_self _ _ _ _ (by omega), hg]
        simp [rbVal]
      · rw [ih (uj - 1) 0 _ (by simp [List.length_set, hlen]) (by omega) (by omega)
          (by omega) (fun m hm => hchain m (by omega)) i (by omega)]
    · have hk : ku (upper.getD (uj - 1) default) = kl (lower.getD (lj - 1) default) :=
        (cmpInt_eq_zero_iff _ _).mp h3
      have hlj1 : lj - 1 + 1 = lj := by omega
      have htake : lower.take lj = lower.take (lj - 1) ++ [lower.getD (lj - 1) default] := by
        rw [← hlj1]
        exact take_snoc_getD _ _ (by omega)
      by_cases hieq : i = uj - 1
      · subst hieq
        rw [calcRBAux_getD_ge _ _ _ _ n (uj - 1) (lj - 1) _ (uj - 1) (le_refl _)]
        rw [getD_set_self _ _ _ _ (by omega), hg]
        rw [htake, List.map_append, List.map_cons, List.map_nil, rbVal_snoc]
        rw [if_pos (le_of_eq hk.symm)]
        simp only [List.length_map, List.length_take]
        omega
      · rw [ih (uj - 1) (lj - 1) _ (by simp [List.length_set, hlen]) (by omega) (by omega)
          (by omega) (fun m hm => hchain m (by omega)) i (by omega)]
        rw [htake, List.map_append, List.map_cons, List.map_nil, rbVal_snoc]
        have hlt : ku (upper.getD i default) < ku (upper.getD (uj - 1) default) :=
          chain_lt_of_lt (fun m => ku (upper.getD m default)) 0 uj
            (fun m _ hm2 => hchain m hm2) i (uj - 1) (by omega) (by omega) (by omega)
        rw [if_neg (by omega)]
    · have hk : kl (lower.getD (lj - 1) default) > ku (upper.getD (uj - 1) default) := by
        have := (cmpInt_neg_iff (ku (upper.getD (uj - 1) default))
          (kl (lower.getD (lj - 1) default))).mp h4
        omega
      have hlj1 : lj - 1 + 1 = lj := by omega
      have htake : lower.take lj = lower.take (lj - 1) ++ [lower.getD (lj - 1) default] := by
        rw [← hlj1]
        exact take_snoc_getD _ _ (by omega)
      rw [ih uj (lj - 1) index hlen huj (by omega) (by omega) hchain i hi]
      rw [htake, List.map_append, List.map_cons, List.map_nil, rbVal_snoc]
      have hle : ku (upper.getD i default) ≤ ku (upper.getD (uj - 1) default) :=
        chain_le_of_le (fun m => ku (upper.getD m default)) 0 uj
          (fun m _ hm2 => hchain m hm2) i (uj - 1) (by omega) (by omega) (by omega)
      rw [if_neg (by omega)]
    · have hk : kl (lower.getD (lj - 1) default) < ku (upper.getD (uj - 1) default) :=
        cmpInt_gt_of_not _ _ h3 h4
      have hlj1 : lj - 1 + 1 = lj := by omega
      have htake : lower.take lj = lower.take (lj - 1) ++ [lower.getD (lj - 1) default] := by
        rw [← hlj1]
        exact take_snoc_getD _ _ (by omega)
      by_cases hieq : i = uj - 1
      · subst hieq
        rw [calcRBAux_getD_ge _ _ _ _ n (uj - 1) lj _ (uj - 1) (le_refl _)]
        rw [getD_set_self _ _ _ _ (by omega), hg]
        rw [htake, List.map_append, List.map_cons, List.map_nil, rbVal_snoc]
        rw [if_pos (le_of_lt hk)]
        simp only [List.length_map, List.length_take]
        omega
      · rw [ih (uj - 1) lj _ (by simp [List.length_set, hlen]) (by omega) hlj
          (by omega) (fun m hm => hchain m (by omega)) i (by omega)]

theorem updateOneLevel_length (upper lower : List FileMeta) (old : List IndexUnit) :
    (updateOneLevel upper lower old).length = upper.length := by
  simp only [updateOneLevel, calcLB, calcRB]
  rw [calcRBAux_length, calcRBAux_length, calcLBAux_length, calcLBAux_length,
    resizeIndex_length]

/-- The hint record produced by the four merge passes for upper position
`i` is exactly `hintOf upper_i lower`, provided the upper smallest and
largest keys are strictly increasing.  No hypothesis on the lower level
is needed. -/
theorem updateOneLevel_getD (upper lower : List FileMeta) (old : List IndexUnit)
    (hchainS : ∀ m, m + 1 < upper.length →
      (upper.getD m default).smallest < (upper.getD (m + 1) default).smallest)
    (hchainL : ∀ m, m + 1 < upper.length →
      (upper.getD m default).largest < (upper.getD (m + 1) default).largest)
    (i : Nat) (hi : i < upper.length) :
    (updateOneLevel upper lower old).getD i default =
      hintOf (upper.getD i default) lower := by
  have hlen0 : (resizeIndex old upper.length).length = upper.length :=
    resizeIndex_length _ _
  have hlen1 : (calcLBAux (fun a b => cmpInt a.smallest b.largest)
      (fun u v => { u with smallest_lb := v }) upper lower
      (upper.length + lower.length) 0 0 (resizeIndex old upper.length)).length =
      upper.length := by
    rw [calcLBAux_length]; exact hlen0
  have hlen2 : (calcLBAux (fun a b => cmpInt a.largest b.largest)
      (fun u v => { u with largest_lb := v }) upper lower
      (upper.length + lower.length) 0 0
      (calcLBAux (fun a b => cmpInt a.smallest b.largest)
        (fun u v => { u with smallest_lb := v }) upper lower
        (upper.length + lower.length) 0 0 (resizeIndex old upper.length))).length =
      upper.length := by
    rw [calcLBAux_length]; exact hlen1
  have hlen3 : (calcRBAux (fun a b => cmpInt a.smallest b.smallest)
      (fun u v => { u with smallest_rb := v }) upper lower
      (upper.length + lower.length) upper.length lower.length
      (calcLBAux (fun a b => cmpInt a.largest b.largest)
        (fun u v => { u with largest_lb := v }) upper lower
        (upper.length + lower.length) 0 0
        (calcLBAux (fun a b => cmpInt a.smallest b.largest)
          (fun u v => { u with smallest_lb := v }) upper lower
          (upper.length + lower.length) 0 0 (resizeIndex old upper.length)))).length =
      upper.length := by
    rw [calcRBAux_length]; exact hlen2
  simp only [updateOneLevel, calcLB, calcRB]
  refine IndexUnit.ext ?_ ?_ ?_ ?_
  · rw [calcRBAux_pres (fun a b => cmpInt a.largest b.smallest)
      (fun u v => { u with largest_rb := v }) IndexUnit.smallest_lb
      (fun u v => rfl) upper lower (upper.length + lower.length)]
    rw [calcRBAux_pres (fun a b => cmpInt a.smallest b.smallest)
      (fun u v => { u with smallest_rb := v }) IndexUnit.smallest_lb
      (fun u v => rfl) upper lower (upper.length + lower.length)]
    rw [calcLBAux_pres (fun a b => cmpInt a.largest b.largest)
      (fun u v => { u with largest_lb := v }) IndexUnit.smallest_lb
      (fun u v => rfl) upper lower (upper.length + lower.length)]
    rw [calcLBAux_main FileMeta.smallest FileMeta.largest
      (fun u v => { u with smallest_lb := v }) IndexUnit.smallest_lb
      (fun u v => rfl) upper lower (upper.length + lower.length) 0 0
      (resizeIndex old upper.length) hlen0 (by omega) (by omega)
      (fun m hm hm2 => hchainS m hm2) i (by omega) hi]
    simp [hintOf]
  · rw [calcRBAux_pres (fun a b => cmpInt a.largest b.smallest)
      (fun u v => { u with largest_rb := v }) IndexUnit.largest_lb
      (fun u v => rfl) upper lower (upper.length + lower.length)]
    rw [calcRBAux_pres (fun a b => cmpInt a.smallest b.smallest)
      (fun u v => { u with smallest_rb := v }) IndexUnit.largest_lb
      (fun u v => rfl) upper lower (upper.length + lower.length)]
    rw [calcLBAux_main FileMeta.largest FileMeta.largest
      (fun u v => { u with largest_lb := v }) IndexUnit.largest_lb
      (fun u v => rfl) upper lower (upper.length + lower.length) 0 0 _ hlen1
      (by omega) (by omega) (fun m hm hm2 => hchainL m hm2) i (by omega) hi]
    simp [hintOf]
  · rw [calcRBAux_pres (fun a b => cmpInt a.largest b.smallest)
      (fun u v => { u with largest_rb := v }) IndexUnit.smallest_rb
      (fun u v => rfl) upper lower (upper.length + lower.length)]
    rw [calcRBAux_main FileMeta.smallest FileMeta.smallest
      (fun u v => { u with smallest_rb := v }) IndexUnit.smallest_rb
      (fun u v => rfl) upper lower (upper.length + lower.length) upper.length
      lower.length _ hlen2 (le_refl _) (le_refl _) (le_refl _)
      (fun m hm => hchainS m hm) i hi]
    rw [List.take_length]
    simp [hintOf]
  · rw [calcRBAux_main FileMeta.largest FileMeta.smallest
      (fun u v => { u with largest_rb := v }) IndexUnit.largest_rb
      (fun u v => rfl) upper lower (upper.length + lower.length) upper.length
      lower.length _ hlen3 (le_refl _) (le_refl _) (le_refl _)
      (fun m hm => hchainL m hm) i hi]
    rw [List.take_length]
    simp [hintOf]

/-! ## The level loop of `UpdateIndex`: per-level effects of the fold -/

theorem updateStep_num_levels (fs : List (List FileMeta)) (st : FileIndexer) (level : Nat) :
    (updateStep fs st level).num_levels = st.num_levels := by
  simp only [updateStep]
  split_ifs <;> rfl

theorem updateStep_nli_length (fs : List (List FileMeta)) (st : FileIndexer) (level : Nat) :
    (updateStep fs st level).next_level_index.length = st.next_level_index.length := by
  simp only [updateStep]
  split_ifs <;> simp [List.length_set]

theorem updateStep_rb_length (fs : List (List FileMeta)) (st : FileIndexer) (level : Nat) :
    (updateStep fs st level).level_rb.length = st.level_rb.length := by
  simp only [updateStep]
  split_ifs <;> simp [List.length_set]

theorem updateStep_nli_ne (fs : List (List FileMeta)) (st : FileIndexer) (level u : Nat)
    (h : level ≠ u) :
    (updateStep fs st level).next_level_index.getD u [] =
      st.next_level_index.getD u [] := by
  simp only [updateStep]
  split_ifs
  · rfl
  · exact getD_set_ne _ _ _ _ _ h

theorem updateStep_rb_ne (fs : List (List FileMeta)) (st : FileIndexer) (level u : Nat)
    (d : Int) (h : level ≠ u) :
    (updateStep fs st level).level_rb.getD u d = st.level_rb.getD u d := by
  simp only [updateStep]
  split_ifs <;> exact getD_set_ne _ _ _ _ _ h

theorem updateStep_nli_self (fs : List (List FileMeta)) (st : FileIndexer) (u : Nat)
    (h : u < st.next_level_index.length) :
    (updateStep fs st u).next_level_index.getD u [] =
      if (fs.getD u []).length = 0 then st.next_level_index.getD u []
      else updateOneLevel (fs.getD u []) (fs.getD (u + 1) [])
        (st.next_level_index.getD u []) := by
  simp only [updateStep]
  split_ifs
  · rfl
  · exact getD_set_self _ _ _ _ h

theorem updateStep_rb_self (fs : List (List FileMeta)) (st : FileIndexer) (u : Nat)
    (d : Int) (h : u < st.level_rb.length) :
    (updateStep fs st u).level_rb.getD u d = ((fs.getD u []).length : Int) - 1 := by
  simp only [updateStep]
  split_ifs <;> exact getD_set_self _ _ _ _ h

theorem foldl_step_num_levels (fs : List (List FileMeta)) (LS : List Nat) :
    ∀ s : FileIndexer, (LS.foldl (updateStep fs) s).num_levels = s.num_levels := by
  induction LS with
  | nil => intro s; rfl
  | cons l ls ih =>
    intro s
    simp only [List.foldl_cons]
    rw [ih, updateStep_num_levels]

theorem foldl_step_nli_length (fs : List (List FileMeta)) (LS : List Nat) :
    ∀ s : FileIndexer,
      (LS.foldl (updateStep fs) s).next_level_index.length =
        s.next_level_index.length := by
  induction LS with
  | nil => intro s; rfl
  | cons l ls ih =>
    intro s
    simp only [List.foldl_cons]
    rw [ih, updateStep_nli_length]

theorem foldl_step_rb_length (fs : List (List FileMeta)) (LS : List Nat) :
    ∀ s : FileIndexer,
      (LS.foldl (updateStep fs) s).level_rb.length = s.level_rb.length := by
  induction LS with
  | nil => intro s; rfl
  | cons l ls ih =>
    intro s
    simp only [List.foldl_cons]
    rw [ih, updateStep_rb_length]

theorem foldl_step_nli_not_mem (fs : List (List FileMeta)) (LS : List Nat) :
    ∀ (s : FileIndexer) (u : Nat), u ∉ LS →
      (LS.foldl (updateStep fs) s).next_level_index.getD u [] =
        s.next_level_index.getD u [] := by
  induction LS with
  | nil => intro s u h; rfl
  | cons l ls ih =>
    intro s u h
    simp only [List.mem_cons] at h
    push_neg at h
    simp only [List.foldl_cons]
    rw [ih _ u h.2, updateStep_nli_ne _ _ _ _ (by omega)]

theorem foldl_step_rb_not_mem (fs : List (List FileMeta)) (LS : List Nat) :
    ∀ (s : FileIndexer) (u : Nat) (d : Int), u ∉ LS →
      (LS.foldl (updateStep fs) s).level_rb.getD u d = s.level_rb.getD u d := by
  induction LS with
  | nil => intro s u d h; rfl
  | cons l ls ih =>
    intro s u d h
    simp only [List.mem_cons] at h
    push_neg at h
    simp only [List.foldl_cons]
    rw [ih _ u d h.2, updateStep_rb_ne _ _ _ _ _ (by omega)]

theorem foldl_step_nli_mem (fs : List (List FileMeta)) (LS : List Nat) :
    ∀ (s : FileIndexer) (u : Nat), LS.Nodup → u ∈ LS →
      u < s.next_level_index.length →
      (LS.foldl (updateStep fs) s).next_level_index.getD u [] =
        if (fs.getD u []).length = 0 then s.next_level_index.getD u []
        else updateOneLevel (fs.getD u []) (fs.getD (u + 1) [])
          (s.next_level_index.getD u []) := by
  induction LS with
  | nil => intro s u hnd hmem; simp at hmem
  | cons l ls ih =>
    intro s u hnd hmem hlen
    have hnd2 := List.nodup_cons.mp hnd
    simp only [List.foldl_cons]
    rcases List.mem_cons.mp hmem with he | hm
    · subst he
      rw [foldl_step_nli_not_mem fs ls _ u hnd2.1]
      exact updateStep_nli_self fs s u hlen
    · have hne : l ≠ u := fun hc => hnd2.1 (hc ▸ hm)
      rw [ih _ u hnd2.2 hm (by rw [updateStep_nli_length]; exact hlen)]
      rw [updateStep_nli_ne _ _ _ _ hne]

theorem foldl_step_rb_mem (fs : List (List FileMeta)) (LS : List Nat) :
    ∀ (s : FileIndexer) (u : Nat) (d : Int), LS.Nodup → u ∈ LS →
      u < s.level_rb.length →
      (LS.foldl (updateStep fs) s).level_rb.getD u d =
        ((fs.getD u []).length : Int) - 1 := by
  induction LS with
  | nil => intro s u d hnd hmem; simp at hmem
  | cons l ls ih =>
    intro s u d hnd hmem hlen
    have hnd2 := List.nodup_cons.mp hnd
    simp only [List.foldl_cons]
    rcases List.mem_cons.mp hmem with he | hm
    · subst he
      rw [foldl_step_rb_not_mem fs ls _ u d hnd2.1]
      exact updateStep_rb_self fs s u d hlen
    · have hne : l ≠ u := fun hc => hnd2.1 (hc ▸ hm)
      rw [ih _ u d hnd2.2 hm (by rw [updateStep_rb_length]; exact hlen)]

/-! ## Effects of `UpdateIndex` and of a fresh build -/

theorem updateIndex_nli (s : FileIndexer) (fs : List (List FileMeta)) (u : Nat)
    (h1 : 1 ≤ u) (h2 : u + 1 < s.num_levels)
    (hlen : u < s.next_level_index.length) :
    (s.updateIndex (some fs)).next_level_index.getD u [] =
      if (fs.getD u []).length = 0 then s.next_level_index.getD u []
      else updateOneLevel (fs.getD u []) (fs.getD (u + 1) [])
        (s.next_level_index.getD u []) := by
  simp only [FileIndexer.updateIndex]
  exact foldl_step_nli_mem fs _ s u (List.nodup_range' _ _)
    (by rw [List.mem_range'_1]; omega) hlen

theorem updateIndex_rb_mid (s : FileIndexer) (fs : List (List FileMeta)) (u : Nat)
    (h1 : 1 ≤ u) (h2 : u + 1 < s.num_levels) (hlen : u < s.level_rb.length) :
    (s.updateIndex (some fs)).level_rb.getD u (-1) =
      ((fs.getD u []).length : Int) - 1 := by
  simp only [FileIndexer.updateIndex]
  rw [getD_set_ne _ _ _ _ _ (by omega)]
  exact foldl_step_rb_mem fs _ s u (-1) (List.nodup_range' _ _)
    (by rw [List.mem_range'_1]; omega) hlen

theorem updateIndex_rb_last (s : FileIndexer) (fs : List (List FileMeta))
    (hlen : s.num_levels - 1 < s.level_rb.length) :
    (s.updateIndex (some fs)).level_rb.getD (s.num_levels - 1) (-1) =
      ((fs.getD (s.num_levels - 1) []).length : Int) - 1 := by
  simp only [FileIndexer.updateIndex]
  rw [getD_set_self _ _ _ _ (by rw [foldl_step_rb_length]; exact hlen)]

theorem init_nli_getD (L u : Nat) :
    (FileIndexer.init L).next_level_index.getD u [] = [] := by
  by_cases h : u < L
  · exact getD_replicate _ _ _ _ h
  · exact getD_of_le _ _ _ (by simp only [FileIndexer.init, List.length_replicate]; omega)

theorem buildIndexer_num_levels (L : Nat) (files : List (List FileMeta)) :
    (buildIndexer L files).num_levels = L := by
  unfold buildIndexer
  simp only [FileIndexer.updateIndex]
  rw [foldl_step_num_levels]
  rfl

theorem buildIndexer_nli (L : Nat) (files : List (List FileMeta)) (u : Nat)
    (h1 : 1 ≤ u) (h2 : u + 1 < L) :
    (buildIndexer L files).next_level_index.getD u [] =
      if (files.getD u []).length = 0 then []
      else updateOneLevel (files.getD u []) (files.getD (u + 1) []) [] := by
  unfold buildIndexer
  rw [updateIndex_nli _ _ u h1 h2
    (by simp only [FileIndexer.init, List.length_replicate]; omega)]
  rw [init_nli_getD]

theorem buildIndexer_rb (L : Nat) (files : List (List FileMeta)) (u : Nat)
    (h1 : 1 ≤ u) (h2 : u < L) :
    (buildIndexer L files).level_rb.getD u (-1) =
      ((files.getD u []).length : Int) - 1 := by
  unfold buildIndexer
  by_cases hmid : u + 1 < L
  · exact updateIndex_rb_mid _ _ u h1 hmid
      (by simp only [FileIndexer.init, List.length_replicate]; omega)
  · have hu : u = L - 1 := by omega
    subst hu
    exact updateIndex_rb_last _ _
      (by simp only [FileIndexer.init, List.length_replicate]; omega)

theorem build_hint_empty (L : Nat) (files : List (List FileMeta)) (u : Nat)
    (h1 : 1 ≤ u) (h2 : u + 1 < L) (he : (files.getD u []).length = 0) :
    (buildIndexer L files).next_level_index.getD u [] = [] := by
  rw [buildIndexer_nli L files u h1 h2, if_pos he]

theorem build_hint_length (L : Nat) (files : List (List FileMeta)) (u : Nat)
    (h1 : 1 ≤ u) (h2 : u + 1 < L) (hne : (files.getD u []).length ≠ 0) :
    ((buildIndexer L files).next_level_index.getD u []).length =
      (files.getD u []).length := by
  rw [buildIndexer_nli L files u h1 h2, if_neg hne, updateOneLevel_length]

/-- Master characterization of a fresh build: the hint record stored for
file `i` of indexed level `u` is exactly `hintOf` of that file against
the next level's file list, whenever level `u` is sorted and
non-overlapping. -/
theorem build_hint_eq (L : Nat) (files : List (List FileMeta)) (u : Nat)
    (h1 : 1 ≤ u) (h2 : u + 1 < L) (hsd : sortedDisjoint (files.getD u []))
    (i : Nat) (hi : i < (files.getD u []).length) :
    ((buildIndexer L files).next_level_index.getD u []).getD i default =
      hintOf ((files.getD u []).getD i default) (files.getD (u + 1) []) := by
  rw [buildIndexer_nli L files u h1 h2, if_neg (by omega)]
  apply updateOneLevel_getD
  · intro m hm
    have hw := hsd.1 m (by omega)
    have hd := hsd.2 m (by omega)
    have hw2 := hsd.1 (m + 1) (by omega)
    omega
  · intro m hm
    have hw := hsd.1 m (by omega)
    have hd := hsd.2 m (by omega)
    have hw2 := hsd.1 (m + 1) (by omega)
    omega
  · exact hi

/-! ## Effects of `ClearIndex` -/

theorem foldl_set_nil_not_mem (LS : List Nat) :
    ∀ (nli : List (List IndexUnit)) (u : Nat), u ∉ LS →
      (LS.foldl (fun l level => l.set level []) nli).getD u [] = nli.getD u [] := by
  induction LS with
  | nil => intro nli u h; rfl
  | cons l ls ih =>
    intro nli u h
    simp only [List.mem_cons] at h
    push_neg at h
    simp only [List.foldl_cons]
    rw [ih _ u h.2, getD_set_ne _ _ _ _ _ (by omega)]

theorem foldl_set_nil_mem (LS : List Nat) :
    ∀ (nli : List (List IndexUnit)) (u : Nat), u ∈ LS →
      (LS.foldl (fun l level => l.set level []) nli).getD u [] = [] := by
  induction LS with
  | nil => intro nli u h; simp at h
  | cons l ls ih =>
    intro nli u h
    simp only [List.foldl_cons]
    by_cases hm : u ∈ ls
    · exact ih _ u hm
    · have he : l = u := by
        rcases List.mem_cons.mp h with he | hm2
        · omega
        · exact absurd hm2 hm
      subst he
      rw [foldl_set_nil_not_mem ls _ l hm]
      by_cases hl : l < nli.length
      · exact getD_set_self _ _ _ _ hl
      · rw [set_of_length_le _ _ _ (by omega)]
        exact getD_of_le _ _ _ (by omega)

theorem foldl_set_nil_length (LS : List Nat) :
    ∀ nli : List (List IndexUnit),
      (LS.foldl (fun l level => l.set level []) nli).length = nli.length := by
  induction LS with
  | nil => intro nli; rfl
  | cons l ls ih =>
    intro nli
    simp only [List.foldl_cons]
    rw [ih, List.length_set]

theorem clearIndex_nli_length (s : FileIndexer) :
    s.clearIndex.next_level_index.length = s.next_level_index.length := by
  simp only [FileIndexer.clearIndex]
  rw [foldl_set_nil_length]

theorem clearIndex_nli_getD (s : FileIndexer) (u : Nat) (h1 : 1 ≤ u)
    (h2 : u < s.num_levels) :
    s.clearIndex.next_level_index.getD u [] = [] := by
  simp only [FileIndexer.clearIndex]
  exact foldl_set_nil_mem _ _ u (by rw [List.mem_range'_1]; omega)

/-- Any two builds of the same per-level file lists produce the same
hint sequence at a level, regardless of the hint state the two
structures started from: every field of every slot of the level is
overwritten by the four merge passes. -/
theorem updateOneLevel_ext (upper lower : List FileMeta) (old1 old2 : List IndexUnit) :
    updateOneLevel upper lower old1 = updateOneLevel upper lower old2 := by
  have hl1 : (updateOneLevel upper lower old1).length = upper.length :=
    updateOneLevel_length _ _ _
  have hl2 : (updateOneLevel upper lower old2).length = upper.length :=
    updateOneLevel_length _ _ _
  have hr1 : (resizeIndex old1 upper.length).length = upper.length := resizeIndex_length _ _
  have hr2 : (resizeIndex old2 upper.length).length = upper.length := resizeIndex_length _ _
  apply list_eq_of_getD _ _ default (by omega)
  intro m hm
  simp only [updateOneLevel, calcLB, calcRB]
  refine IndexUnit.ext ?_ ?_ ?_ ?_
  · rw [calcRBAux_pres (fun a b => cmpInt a.largest b.smallest)
      (fun u v => { u with largest_rb := v }) IndexUnit.smallest_lb
      (fun u v => rfl) upper lower (upper.length + lower.length)]
    rw [calcRBAux_pres (fun a b => cmpInt a.largest b.smallest)
      (fun u v => { u with largest_rb := v }) IndexUnit.smallest_lb
      (fun u v => rfl) upper lower (upper.length + lower.length)]
    rw [calcRBAux_pres (fun a b => cmpInt a.smallest b.smallest)
      (fun u v => { u with smallest_rb := v }) IndexUnit.smallest_lb
      (fun u v => rfl) upper lower (upper.length + lower.length)]
    rw [calcRBAux_pres (fun a b => cmpInt a.smallest b.smallest)
      (fun u v => { u with smallest_rb := v }) IndexUnit.smallest_lb
      (fun u v => rfl) upper lower (upper.length + lower.length)]
    rw [calcLBAux_pres (fun a b => cmpInt a.largest b.largest)
      (fun u v => { u with largest_lb := v }) IndexUnit.smallest_lb
      (fun u v => rfl) upper lower (upper.length + lower.length)]
    rw [calcLBAux_pres (fun a b => cmpInt a.largest b.largest)
      (fun u v => { u with largest_lb := v }) IndexUnit.smallest_lb
      (fun u v => rfl) upper lower (upper.length + lower.length)]
    exact calcLBAux_field_ext _ _ IndexUnit.smallest_lb (fun u v => rfl) upper lower
      (upper.length + lower.length) 0 0 _ _ (by omega) (by omega)
      (fun m' hm' => by
        rcases hm' with h | h
        · omega
        · rw [getD_of_le _ _ _ (by omega), getD_of_le _ _ _ (by omega)]) m
  · rw [calcRBAux_pres (fun a b => cmpInt a.largest b.smallest)
      (fun u v => { u with largest_rb := v }) IndexUnit.largest_lb
      (fun u v => rfl) upper lower (upper.length + lower.length)]
    rw [calcRBAux_pres (fun a b => cmpInt a.largest b.smallest)
      (fun u v => { u with largest_rb := v }) IndexUnit.largest_lb
      (fun u v => rfl) upper lower (upper.length + lower.length)]
    rw [calcRBAux_pres (fun a b => cmpInt a.smallest b.smallest)
      (fun u v => { u with smallest_rb := v }) IndexUnit.largest_lb
      (fun u v => rfl) upper lower (upper.length + lower.length)]
    rw [calcRBAux_pres (fun a b => cmpInt a.smallest b.smallest)
      (fun u v => { u with smallest_rb := v }) IndexUnit.largest_lb
      (fun u v => rfl) upper lower (upper.length + lower.length)]
    exact calcLBAux_field_ext _ _ IndexUnit.largest_lb (fun u v => rfl) upper lower
      (upper.length + lower.length) 0 0 _ _
      (by rw [calcLBAux_length, calcLBAux_length, hr1, hr2]) (by omega)
      (fun m' hm' => by
        rcases hm' with h | h
        · omega
        · rw [getD_of_le _ _ _ (by rw [calcLBAux_length]; omega),
            getD_of_le _ _ _ (by rw [calcLBAux_length]; omega)]) m
  · rw [calcRBAux_pres (fun a b => cmpInt a.largest b.smallest)
      (fun u v => { u with largest_rb := v }) IndexUnit.smallest_rb
      (fun u v => rfl) upper lower (upper.length + lower.length)]
    rw [calcRBAux_pres (fun a b => cmpInt a.largest b.smallest)
      (fun u v => { u with largest_rb := v }) IndexUnit.smallest_rb
      (fun u v => rfl) upper lower (upper.length + lower.length)]
    exact calcRBAux_field_ext _ _ IndexUnit.smallest_rb (fun u v => rfl) upper lower
      (upper.length + lower.length) upper.length lower.length _ _
      (by rw [calcLBAux_length, calcLBAux_length, calcLBAux_length, calcLBAux_length,
        hr1, hr2]) (by omega)
      (fun m' hm' => by
        rw [getD_of_le _ _ _
            (by rw [calcLBAux_length, calcLBAux_length]; omega),
          getD_of_le _ _ _
            (by rw [calcLBAux_length, calcLBAux_length]; omega)]) m
  · exact calcRBAux_field_ext _ _ IndexUnit.largest_rb (fun u v => rfl) upper lower
      (upper.length + lower.length) upper.length lower.length _ _
      (by rw [calcRBAux_length, calcRBAux_length, calcLBAux_length, calcLBAux_length,
        calcLBAux_length, calcLBAux_length, hr1, hr2]) (by omega)
      (fun m' hm' => by
        rw [getD_of_le _ _ _
            (by rw [calcRBAux_length, calcLBAux_length, calcLBAux_length]; omega),
          getD_of_le _ _ _
            (by rw [calcRBAux_length, calcLBAux_length, calcLBAux_length]; omega)]) m


/-! ## Claim theorems -/

/-- C8: null-input build is a no-op.  For every state of the structure,
`UpdateIndex(nullptr)` returns without failing and leaves every level's
hint sequence and every level's bound-cache entry exactly as they were
(the whole state is unchanged). -/
theorem C8_null_noop (s : FileIndexer) : s.updateIndex none = s := rfl

/-- C9: frame of `ClearIndex`.  For every state, it empties the hint
sequence of every level `1 .. num_levels - 1`, never touches level 0's
hint slot, leaves the bound caches unchanged and never fails (it is a
total function). -/
theorem C9_clear_frame (s : FileIndexer) :
    (∀ u, u < s.num_levels → 1 ≤ u →
      s.clearIndex.next_level_index.getD u [] = []) ∧
    s.clearIndex.next_level_index.getD 0 [] = s.next_level_index.getD 0 [] ∧
    s.clearIndex.level_rb = s.level_rb ∧
    s.clearIndex.num_levels = s.num_levels := by
  refine ⟨?_, ?_, rfl, rfl⟩
  · intro u hu h1
    exact clearIndex_nli_getD s u h1 hu
  · simp only [FileIndexer.clearIndex]
    exact foldl_set_nil_not_mem _ _ 0 (by rw [List.mem_range'_1]; omega)

/-- C7 as stated is false: a build performed on a structure that has
been built before does not reset the hint sequence of a level whose
file list is now empty.  Building `3` levels with one file at level 1,
then building again with level 1 empty, leaves one stale hint record at
level 1. -/
theorem C7_empty_level_cex :
    ((buildIndexer 3 [[], [⟨10, 20⟩], [⟨5, 15⟩]]).updateIndex
        (some [[], [], [⟨5, 15⟩]])).levelIndexSize 1 ≠ 0 := by decide

/-- C7 amended: on a structure whose hint sequences have just been
cleared (`ClearIndex`, which is also the state of a freshly constructed
structure), a build leaves zero hint records at every indexed level
whose file list is empty, and still gives every non-empty indexed level
exactly one hint record per file. -/
theorem C7_empty_level_amended (s : FileIndexer) (files : List (List FileMeta))
    (hwf : s.next_level_index.length = s.num_levels)
    (hL : 3 ≤ s.num_levels)
    (u : Nat) (h1 : 1 ≤ u) (h2 : u ≤ s.num_levels - 2) :
    (files.getD u [] = [] →
      (s.clearIndex.updateIndex (some files)).levelIndexSize u = 0) ∧
    (files.getD u [] ≠ [] →
      (s.clearIndex.updateIndex (some files)).levelIndexSize u =
        (files.getD u []).length) := by
  have hnl : s.clearIndex.num_levels = s.num_levels := rfl
  have hslot : s.clearIndex.next_level_index.getD u [] = [] :=
    clearIndex_nli_getD s u h1 (by omega)
  have hlen : u < s.clearIndex.next_level_index.length := by
    rw [clearIndex_nli_length, hwf]; omega
  have hnli := updateIndex_nli s.clearIndex files u h1 (by rw [hnl]; omega) hlen
  constructor
  · intro he
    have he0 : (files.getD u []).length = 0 := by rw [he]; rfl
    unfold FileIndexer.levelIndexSize
    rw [hnli, if_pos he0, hslot]
    rfl
  · intro hne
    have hne0 : (files.getD u []).length ≠ 0 := by
      intro hc
      exact hne (List.length_eq_zero.mp hc)
    unfold FileIndexer.levelIndexSize
    rw [hnli, if_neg hne0, updateOneLevel_length]

/-- C10: every non-empty rebuild fully overwrites the hint records of
each non-empty indexed level; no field can retain a value from a
previous build.  Formally, the hint sequence a build stores at a
non-empty indexed level does not depend on the hint state the structure
held before the call. -/
theorem C10_full_overwrite (L : Nat) (files : List (List FileMeta))
    (s1 s2 : FileIndexer)
    (hn1 : s1.num_levels = L) (hn2 : s2.num_levels = L)
    (hw1 : s1.next_level_index.length = L) (hw2 : s2.next_level_index.length = L)
    (hL : 3 ≤ L) (u : Nat) (h1 : 1 ≤ u) (h2 : u ≤ L - 2)
    (hne : (files.getD u []).length ≠ 0) :
    (s1.updateIndex (some files)).next_level_index.getD u [] =
      (s2.updateIndex (some files)).next_level_index.getD u [] := by
  rw [updateIndex_nli s1 files u h1 (by omega) (by omega),
    updateIndex_nli s2 files u h1 (by omega) (by omega)]
  rw [if_neg hne, if_neg hne]
  exact updateOneLevel_ext _ _ _ _

/-- C6: the target-precedes-file case of the resolver.  Whenever
`cmp_smallest < 0` and the call is within bounds at an interior level,
the left bound returned is the previous file's `largest_lb` when
`file_index > 0` (and `0` when `file_index = 0`), and the right bound is
the file's own `smallest_rb`. -/
theorem C6_target_precedes (s : FileIndexer) (level file_index : Nat)
    (hL : 3 ≤ s.num_levels) (h1 : 1 ≤ level) (h2 : level ≤ s.num_levels - 2)
    (_hfi : (file_index : Int) ≤ s.level_rb.getD level (-1))
    (cs cl : Int) (hcs : cs < 0) :
    s.getNextLevelIndex level file_index cs cl =
      ((if 0 < file_index then
          ((s.next_level_index.getD level []).getD (file_index - 1) default).largest_lb
        else 0),
       ((s.next_level_index.getD level []).getD file_index default).smallest_rb) := by
  simp only [FileIndexer.getNextLevelIndex]
  rw [if_neg (by omega), if_pos hcs]
  by_cases hf : 0 < file_index
  · rw [if_pos (show 0 < level ∧ 0 < file_index from ⟨by omega, hf⟩), if_pos hf]
  · rw [if_neg (fun hc => hf hc.2), if_neg hf]

/-- C2: after a build of sorted, non-overlapping file lists, the four
fields of every hint record are exactly the boundary indices the spec
describes: `smallest_lb` (resp. `largest_lb`) is the smallest lower
index whose `largest` key is `≥` the file's smallest (resp. largest)
key, or the lower file count when none exists; `smallest_rb` (resp.
`largest_rb`) is the largest lower index whose `smallest` key is `≤`
the file's smallest (resp. largest) key, or `-1` when none exists. -/
theorem C2_builder_fields (L : Nat) (files : List (List FileMeta))
    (hL : 3 ≤ L)
    (hsd : ∀ l, l < L → 1 ≤ l → sortedDisjoint (files.getD l []))
    (u : Nat) (h1 : 1 ≤ u) (h2 : u ≤ L - 2)
    (i : Nat) (hi : i < (files.getD u []).length) :
    IsLeastGe ((files.getD u []).getD i default).smallest
      ((files.getD (u + 1) []).map FileMeta.largest)
      (((buildIndexer L files).next_level_index.getD u []).getD i
        default).smallest_lb ∧
    IsLeastGe ((files.getD u []).getD i default).largest
      ((files.getD (u + 1) []).map FileMeta.largest)
      (((buildIndexer L files).next_level_index.getD u []).getD i
        default).largest_lb ∧
    IsGreatestLe ((files.getD u []).getD i default).smallest
      ((files.getD (u + 1) []).map FileMeta.smallest)
      (((buildIndexer L files).next_level_index.getD u []).getD i
        default).smallest_rb ∧
    IsGreatestLe ((files.getD u []).getD i default).largest
      ((files.getD (u + 1) []).map FileMeta.smallest)
      (((buildIndexer L files).next_level_index.getD u []).getD i
        default).largest_rb := by
  rw [build_hint_eq L files u h1 (by omega) (hsd u (by omega) h1) i hi]
  simp only [hintOf]
  exact ⟨lbVal_isLeastGe _ _, lbVal_isLeastGe _ _,
    rbVal_isGreatestLe _ _, rbVal_isGreatestLe _ _⟩

/-- C3 as stated is false: the invariant `largest_lb ≤ level_bound[u+1]`
fails when a file's largest key exceeds every lower file's largest key,
because the forward pass then stores the sentinel `lower count`
(`level_bound + 1`).  With level 1 holding `[10,20]` and level 2 holding
`[1,2]` (both sorted and non-overlapping), the hint has
`largest_lb = 1` while `level_bound[2] = 0`. -/
theorem C3_invariants_cex :
    sortedDisjoint (([[], [⟨10, 20⟩], [⟨1, 2⟩]] : List (List FileMeta)).getD 1 []) ∧
    sortedDisjoint (([[], [⟨10, 20⟩], [⟨1, 2⟩]] : List (List FileMeta)).getD 2 []) ∧
    ¬((((buildIndexer 3 [[], [⟨10, 20⟩], [⟨1, 2⟩]]).next_level_index.getD 1 []).getD 0
        default).largest_lb ≤
      (buildIndexer 3 [[], [⟨10, 20⟩], [⟨1, 2⟩]]).level_rb.getD 2 (-1)) := by
  decide

/-- C3 amended: after a build over sorted, non-overlapping lists, every
hint record satisfies `0 ≤ smallest_lb ≤ smallest_rb + 1`,
`smallest_rb ≤ largest_rb` and `largest_lb ≤ level_bound[u+1] + 1` (the
last bound is attained by the past-the-end sentinel, so the claimed
`largest_lb ≤ level_bound[u+1]` had to be weakened by one), and all four
fields are monotonically non-decreasing in the file position. -/
theorem C3_invariants_amended (L : Nat) (files : List (List FileMeta))
    (hL : 3 ≤ L)
    (hsd : ∀ l, l < L → 1 ≤ l → sortedDisjoint (files.getD l []))
    (u : Nat) (h1 : 1 ≤ u) (h2 : u ≤ L - 2)
    (i : Nat) (hi : i < (files.getD u []).length) :
    0 ≤ (((buildIndexer L files).next_level_index.getD u []).getD i
        default).smallest_lb ∧
    (((buildIndexer L files).next_level_index.getD u []).getD i
        default).smallest_lb ≤
      (((buildIndexer L files).next_level_index.getD u []).getD i
        default).smallest_rb + 1 ∧
    (((buildIndexer L files).next_level_index.getD u []).getD i
        default).smallest_rb ≤
      (((buildIndexer L files).next_level_index.getD u []).getD i
        default).largest_rb ∧
    (((buildIndexer L files).next_level_index.getD u []).getD i
        default).largest_lb ≤
      (buildIndexer L files).level_rb.getD (u + 1) (-1) + 1 ∧
    (i + 1 < (files.getD u []).length →
      (((buildIndexer L files).next_level_index.getD u []).getD i
          default).smallest_lb ≤
        (((buildIndexer L files).next_level_index.getD u []).getD (i + 1)
          default).smallest_lb ∧
      (((buildIndexer L files).next_level_index.getD u []).getD i
          default).largest_lb ≤
        (((buildIndexer L files).next_level_index.getD u []).getD (i + 1)
          default).largest_lb ∧
      (((buildIndexer L files).next_level_index.getD u []).getD i
          default).smallest_rb ≤
        (((buildIndexer L files).next_level_index.getD u []).getD (i + 1)
          default).smallest_rb ∧
      (((buildIndexer L files).next_level_index.getD u []).getD i
          default).largest_rb ≤
        (((buildIndexer L files).next_level_index.getD u []).getD (i + 1)
          default).largest_rb) := by
  have hsdu := hsd u (by omega) h1
  have hsdl := hsd (u + 1) (by omega) (by omega)
  have hb := build_hint_eq L files u h1 (by omega) hsdu i hi
  have hwfu := hsdu.1 i hi
  have hrb := buildIndexer_rb L files (u + 1) (by omega) (by omega)
  rw [hb, hrb]
  simp only [hintOf]
  refine ⟨lbVal_nonneg _ _, ?_, ?_, ?_, ?_⟩
  · exact lbVal_le_rbVal_succ _ _ _ (le_refl _) hsdl.1
  · exact rbVal_mono _ _ _ hwfu
  · have hlen := lbVal_le_length ((files.getD u []).getD i default).largest
      ((files.getD (u + 1) []).map FileMeta.largest)
    simp only [List.length_map] at hlen
    omega
  · intro hi2
    have hb2 := build_hint_eq L files u h1 (by omega) hsdu (i + 1) hi2
    have hd := hsdu.2 i (by omega)
    have hw2 := hsdu.1 (i + 1) hi2
    rw [hb2]
    simp only [hintOf]
    refine ⟨lbVal_mono _ _ _ (by omega), lbVal_mono _ _ _ (by omega),
      rbVal_mono _ _ _ (by omega), rbVal_mono _ _ _ (by omega)⟩

/-- C5 as stated is false in its first half: with level 1 holding
`[10,20]`, `[30,40]` and level 2 holding `[5,15]`, `[18,25]`, `[35,45]`,
a resolve for file `[10,20]` with `cmp_smallest = 0` (target key 10)
returns `(0, 0)` — the range contains lower index 0 only and does not
include index 1, because `[18,25]` cannot contain the key 10. -/
theorem C5_scenario_cex :
    ((buildIndexer 3 [[], [⟨10, 20⟩, ⟨30, 40⟩], [⟨5, 15⟩, ⟨18, 25⟩, ⟨35, 45⟩]]).getNextLevelIndex
        1 0 (cmpInt 10 10) (cmpInt 10 20)) = (0, 0) ∧
    ¬(((buildIndexer 3 [[], [⟨10, 20⟩, ⟨30, 40⟩],
          [⟨5, 15⟩, ⟨18, 25⟩, ⟨35, 45⟩]]).getNextLevelIndex
        1 0 (cmpInt 10 10) (cmpInt 10 20)).1 ≤ 1 ∧
      (1 : Int) ≤ ((buildIndexer 3 [[], [⟨10, 20⟩, ⟨30, 40⟩],
          [⟨5, 15⟩, ⟨18, 25⟩, ⟨35, 45⟩]]).getNextLevelIndex
        1 0 (cmpInt 10 10) (cmpInt 10 20)).2) := by
  decide

/-- C5 amended: in the concrete scenario, the resolve for `[10,20]` with
`cmp_smallest = 0` (target key 10) returns `(0, 0)`: it includes lower
index 0 (`[5,15]`) only and excludes indices 1 and 2; the resolve for
`[30,40]` with `cmp_largest = 0` (target key 40) returns `(2, 2)`: it
includes lower index 2 (`[35,45]`) only. -/
theorem C5_scenario_amended :
    ((buildIndexer 3 [[], [⟨10, 20⟩, ⟨30, 40⟩], [⟨5, 15⟩, ⟨18, 25⟩, ⟨35, 45⟩]]).getNextLevelIndex
        1 0 (cmpInt 10 10) (cmpInt 10 20)) = (0, 0) ∧
    ((buildIndexer 3 [[], [⟨10, 20⟩, ⟨30, 40⟩], [⟨5, 15⟩, ⟨18, 25⟩, ⟨35, 45⟩]]).getNextLevelIndex
        1 1 (cmpInt 40 30) (cmpInt 40 40)) = (2, 2) := by
  decide

/-- C4: resolver postconditions.  For a structure built from sorted,
non-overlapping lists and a resolve call within bounds at an interior
level whose sign arguments are the comparison signs of some target key
against the file's keys, the returned pair satisfies `0 ≤ left_bound`,
`left_bound ≤ right_bound + 1` and
`right_bound ≤ level_bound[level + 1]`: the three assertions at the end
of `GetNextLevelIndex` never fire. -/
theorem C4_resolver_post (L : Nat) (files : List (List FileMeta))
    (hL : 3 ≤ L)
    (hsd : ∀ l, l < L → 1 ≤ l → sortedDisjoint (files.getD l []))
    (level file_index : Nat) (h1 : 1 ≤ level) (h2 : level ≤ L - 2)
    (hfi : (file_index : Int) ≤ (buildIndexer L files).level_rb.getD level (-1))
    (cs cl k : Int)
    (hcs : cs = cmpInt k ((files.getD level []).getD file_index default).smallest)
    (hcl : cl = cmpInt k ((files.getD level []).getD file_index default).largest) :
    0 ≤ ((buildIndexer L files).getNextLevelIndex level file_index cs cl).1 ∧
    ((buildIndexer L files).getNextLevelIndex level file_index cs cl).1 ≤
      ((buildIndexer L files).getNextLevelIndex level file_index cs cl).2 + 1 ∧
    ((buildIndexer L files).getNextLevelIndex level file_index cs cl).2 ≤
      (buildIndexer L files).level_rb.getD (level + 1) (-1) := by
  subst hcs
  subst hcl
  have hsdu := hsd level (by omega) h1
  have hsdl := hsd (level + 1) (by omega) (by omega)
  have hrbu := buildIndexer_rb L files level h1 (by omega)
  have hrbl := buildIndexer_rb L files (level + 1) (by omega) (by omega)
  rw [hrbu] at hfi
  have hfe : file_index < (files.getD level []).length := by omega
  have hb := build_hint_eq L files level h1 (by omega) hsdu file_index hfe
  simp only [FileIndexer.getNextLevelIndex, buildIndexer_num_levels]
  rw [if_neg (by omega), hrbl, hb]
  simp only [hintOf]
  split_ifs with hc1 hin hc2 hc3 hc4 hc5
  · have hbp := build_hint_eq L files level h1 (by omega) hsdu (file_index - 1)
      (by omega)
    rw [hbp]
    simp only [hintOf]
    have hch := hsdu.2 (file_index - 1) (by omega)
    have hidx : file_index - 1 + 1 = file_index := by omega
    rw [hidx] at hch
    have f1 := lbVal_nonneg ((files.getD level []).getD (file_index - 1) default).largest
      ((files.getD (level + 1) []).map FileMeta.largest)
    have f2 := lbVal_le_rbVal_succ (files.getD (level + 1) [])
      ((files.getD level []).getD (file_index - 1) default).largest
      ((files.getD level []).getD file_index default).smallest
      (by omega) hsdl.1
    have f3 := rbVal_lt_length ((files.getD level []).getD file_index default).smallest
      ((files.getD (level + 1) []).map FileMeta.smallest)
    simp only [List.length_map] at f3
    exact ⟨f1, by omega, by omega⟩
  · have f2 := rbVal_ge_neg_one ((files.getD level []).getD file_index default).smallest
      ((files.getD (level + 1) []).map FileMeta.smallest)
    have f3 := rbVal_lt_length ((files.getD level []).getD file_index default).smallest
      ((files.getD (level + 1) []).map FileMeta.smallest)
    simp only [List.length_map] at f3
    exact ⟨by omega, by omega, by omega⟩
  · have f1 := lbVal_nonneg ((files.getD level []).getD file_index default).smallest
      ((files.getD (level + 1) []).map FileMeta.largest)
    have f2 := lbVal_le_rbVal_succ (files.getD (level + 1) [])
      ((files.getD level []).getD file_index default).smallest
      ((files.getD level []).getD file_index default).smallest
      (le_refl _) hsdl.1
    have f3 := rbVal_lt_length ((files.getD level []).getD file_index default).smallest
      ((files.getD (level + 1) []).map FileMeta.smallest)
    simp only [List.length_map] at f3
    exact ⟨f1, by omega, by omega⟩
  · have f1 := lbVal_nonneg ((files.getD level []).getD file_index default).smallest
      ((files.getD (level + 1) []).map FileMeta.largest)
    have f2 := lbVal_le_rbVal_succ (files.getD (level + 1) [])
      ((files.getD level []).getD file_index default).smallest
      ((files.getD level []).getD file_index default).largest
      (hsdu.1 file_index hfe) hsdl.1
    have f3 := rbVal_lt_length ((files.getD level []).getD file_index default).largest
      ((files.getD (level + 1) []).map FileMeta.smallest)
    simp only [List.length_map] at f3
    exact ⟨f1, by omega, by omega⟩
  · have f1 := lbVal_nonneg ((files.getD level []).getD file_index default).largest
      ((files.getD (level + 1) []).map FileMeta.largest)
    have f2 := lbVal_le_rbVal_succ (files.getD (level + 1) [])
      ((files.getD level []).getD file_index default).largest
      ((files.getD level []).getD file_index default).largest
      (le_refl _) hsdl.1
    have f3 := rbVal_lt_length ((files.getD level []).getD file_index default).largest
      ((files.getD (level + 1) []).map FileMeta.smallest)
    simp only [List.length_map] at f3
    exact ⟨f1, by omega, by omega⟩
  · have f1 := lbVal_nonneg ((files.getD level []).getD file_index default).largest
      ((files.getD (level + 1) []).map FileMeta.largest)
    have f2 := lbVal_le_length ((files.getD level []).getD file_index default).largest
      ((files.getD (level + 1) []).map FileMeta.largest)
    simp only [List.length_map] at f2
    exact ⟨f1, by omega, by omega⟩
  · exfalso
    have hs1 : ¬ k < ((files.getD level []).getD file_index default).smallest :=
      fun hh => hc1 ((cmpInt_neg_iff _ _).mpr hh)
    have hs2 : ¬ k = ((files.getD level []).getD file_index default).smallest :=
      fun hh => hc2 ((cmpInt_eq_zero_iff _ _).mpr hh)
    have hl1 : ¬ k < ((files.getD level []).getD file_index default).largest :=
      fun hh => hc3 ⟨(cmpInt_pos_iff _ _).mpr (by omega), (cmpInt_neg_iff _ _).mpr hh⟩
    have hl2 : ¬ k = ((files.getD level []).getD file_index default).largest :=
      fun hh => hc4 ((cmpInt_eq_zero_iff _ _).mpr hh)
    exact hc5 ((cmpInt_pos_iff _ _).mpr (by omega))

/-- C1 as stated is false: soundness fails for an arbitrary pairing of a
file index and a target key.  With level 1 holding `[0,100]`, `[200,300]`
and level 2 holding `[10,20]`, `[150,400]` (all sorted and
non-overlapping), resolving for the level-1 file at index 1 with the
comparison signs of target key 15 returns `(1, 1)`, which excludes lower
index 0 even though `[10,20]` contains 15.  (Index 1 is not the file a
level-1 search for key 15 would land on; the claim quantifies over every
index and key and is therefore refuted.) -/
theorem C1_soundness_cex :
    (∀ l, l < 3 → 1 ≤ l →
      sortedDisjoint (([[], [⟨0, 100⟩, ⟨200, 300⟩], [⟨10, 20⟩, ⟨150, 400⟩]] :
        List (List FileMeta)).getD l [])) ∧
    ((([[], [⟨0, 100⟩, ⟨200, 300⟩], [⟨10, 20⟩, ⟨150, 400⟩]] :
        List (List FileMeta)).getD 2 []).getD 0 default).smallest ≤ 15 ∧
    (15 : Int) ≤ ((([[], [⟨0, 100⟩, ⟨200, 300⟩], [⟨10, 20⟩, ⟨150, 400⟩]] :
        List (List FileMeta)).getD 2 []).getD 0 default).largest ∧
    ¬(((buildIndexer 3 [[], [⟨0, 100⟩, ⟨200, 300⟩],
          [⟨10, 20⟩, ⟨150, 400⟩]]).getNextLevelIndex 1 1
        (cmpInt 15 200) (cmpInt 15 300)).1 ≤ 0 ∧
      (0 : Int) ≤ ((buildIndexer 3 [[], [⟨0, 100⟩, ⟨200, 300⟩],
          [⟨10, 20⟩, ⟨150, 400⟩]]).getNextLevelIndex 1 1
        (cmpInt 15 200) (cmpInt 15 300)).2) := by
  decide

/-- C1 amended: soundness of resolution holds for every target key in
the file's search context, i.e. whenever `file_index = 0` or the key is
greater than the previous file's largest key (which is exactly the
condition under which a level search positions the lookup at this
file).  Under that hypothesis, the range returned by `GetNextLevelIndex`
contains every lower index whose file range could contain the key. -/
theorem C1_soundness_amended (L : Nat) (files : List (List FileMeta))
    (hL : 3 ≤ L)
    (hsd : ∀ l, l < L → 1 ≤ l → sortedDisjoint (files.getD l []))
    (u : Nat) (h1 : 1 ≤ u) (h2 : u ≤ L - 2)
    (i : Nat) (hi : i < (files.getD u []).length)
    (k : Int)
    (hctx : i = 0 ∨ ((files.getD u []).getD (i - 1) default).largest < k) :
    ∀ j, j < (files.getD (u + 1) []).length →
      ((files.getD (u + 1) []).getD j default).smallest ≤ k →
      k ≤ ((files.getD (u + 1) []).getD j default).largest →
      ((buildIndexer L files).getNextLevelIndex u i
          (cmpInt k ((files.getD u []).getD i default).smallest)
          (cmpInt k ((files.getD u []).getD i default).largest)).1 ≤ (j : Int) ∧
      (j : Int) ≤ ((buildIndexer L files).getNextLevelIndex u i
          (cmpInt k ((files.getD u []).getD i default).smallest)
          (cmpInt k ((files.getD u []).getD i default).largest)).2 := by
  intro j hj hjs hjl
  have hsdu := hsd u (by omega) h1
  have hrbl := buildIndexer_rb L files (u + 1) (by omega) (by omega)
  have hb := build_hint_eq L files u h1 (by omega) hsdu i hi
  have hjmL : j < ((files.getD (u + 1) []).map FileMeta.largest).length := by
    simp only [List.length_map]
    exact hj
  have hjmS : j < ((files.getD (u + 1) []).map FileMeta.smallest).length := by
    simp only [List.length_map]
    exact hj
  have hmapLj : ((files.getD (u + 1) []).map FileMeta.largest).getD j 0 =
      ((files.getD (u + 1) []).getD j default).largest := getD_map_int _ _ _ hj
  have hmapSj : ((files.getD (u + 1) []).map FileMeta.smallest).getD j 0 =
      ((files.getD (u + 1) []).getD j default).smallest := getD_map_int _ _ _ hj
  simp only [FileIndexer.getNextLevelIndex, buildIndexer_num_levels]
  rw [if_neg (by omega), hrbl, hb]
  simp only [hintOf]
  split_ifs with hc1 hin hc2 hc3 hc4 hc5
  · have hks : k < ((files.getD u []).getD i default).smallest :=
      (cmpInt_neg_iff _ _).mp hc1
    have hprev : ((files.getD u []).getD (i - 1) default).largest < k := by
      rcases hctx with hz | hp
      · omega
      · exact hp
    have hbp := build_hint_eq L files u h1 (by omega) hsdu (i - 1) (by omega)
    rw [hbp]
    simp only [hintOf]
    constructor
    · apply lbVal_le_of_ge _ _ j hjmL
      rw [hmapLj]
      omega
    · apply rbVal_ge_of_le _ _ j hjmS
      rw [hmapSj]
      omega
  · have hks : k < ((files.getD u []).getD i default).smallest :=
      (cmpInt_neg_iff _ _).mp hc1
    constructor
    · omega
    · apply rbVal_ge_of_le _ _ j hjmS
      rw [hmapSj]
      omega
  · have hks : k = ((files.getD u []).getD i default).smallest :=
      (cmpInt_eq_zero_iff _ _).mp hc2
    constructor
    · apply lbVal_le_of_ge _ _ j hjmL
      rw [hmapLj]
      omega
    · apply rbVal_ge_of_le _ _ j hjmS
      rw [hmapSj]
      omega
  · have hks : ((files.getD u []).getD i default).smallest < k :=
      (cmpInt_pos_iff _ _).mp hc3.1
    have hkl : k < ((files.getD u []).getD i default).largest :=
      (cmpInt_neg_iff _ _).mp hc3.2
    constructor
    · apply lbVal_le_of_ge _ _ j hjmL
      rw [hmapLj]
      omega
    · apply rbVal_ge_of_le _ _ j hjmS
      rw [hmapSj]
      omega
  · have hkl : k = ((files.getD u []).getD i default).largest :=
      (cmpInt_eq_zero_iff _ _).mp hc4
    constructor
    · apply lbVal_le_of_ge _ _ j hjmL
      rw [hmapLj]
      omega
    · apply rbVal_ge_of_le _ _ j hjmS
      rw [hmapSj]
      omega
  · have hkl : ((files.getD u []).getD i default).largest < k :=
      (cmpInt_pos_iff _ _).mp hc5
    constructor
    · apply lbVal_le_of_ge _ _ j hjmL
      rw [hmapLj]
      omega
    · omega
  · exfalso
    have hs1 : ¬ k < ((files.getD u []).getD i default).smallest :=
      fun hh => hc1 ((cmpInt_neg_iff _ _).mpr hh)
    have hs2 : ¬ k = ((files.getD u []).getD i default).smallest :=
      fun hh => hc2 ((cmpInt_eq_zero_iff _ _).mpr hh)
    have hl1 : ¬ k < ((files.getD u []).getD i default).largest :=
      fun hh => hc3 ⟨(cmpInt_pos_iff _ _).mpr (by omega), (cmpInt_neg_iff _ _).mpr hh⟩
    have hl2 : ¬ k = ((files.getD u []).getD i default).largest :=
      fun hh => hc4 ((cmpInt_eq_zero_iff _ _).mpr hh)
    exact hc5 ((cmpInt_pos_iff _ _).mpr (by omega))

/-! ## Witnesses: each hypothesis-bearing claim theorem applied at a
concrete input -/

theorem C1_soundness_witness :
    ((3 : Nat) ≤ 3 ∧
      (∀ l, l < 3 → 1 ≤ l →
        sortedDisjoint (([[], [⟨10, 20⟩, ⟨30, 40⟩], [⟨5, 15⟩, ⟨18, 25⟩, ⟨35, 45⟩]] :
          List (List FileMeta)).getD l [])) ∧
      (0 : Nat) < (([[], [⟨10, 20⟩, ⟨30, 40⟩], [⟨5, 15⟩, ⟨18, 25⟩, ⟨35, 45⟩]] :
        List (List FileMeta)).getD 1 []).length) ∧
    (((buildIndexer 3 [[], [⟨10, 20⟩, ⟨30, 40⟩], [⟨5, 15⟩, ⟨18, 25⟩, ⟨35, 45⟩]]).getNextLevelIndex 1 0
        (cmpInt 10 ((([[], [⟨10, 20⟩, ⟨30, 40⟩], [⟨5, 15⟩, ⟨18, 25⟩, ⟨35, 45⟩]] :
          List (List FileMeta)).getD 1 []).getD 0 default).smallest)
        (cmpInt 10 ((([[], [⟨10, 20⟩, ⟨30, 40⟩], [⟨5, 15⟩, ⟨18, 25⟩, ⟨35, 45⟩]] :
          List (List FileMeta)).getD 1 []).getD 0 default).largest)).1 ≤ ((0 : Nat) : Int) ∧
      ((0 : Nat) : Int) ≤
        ((buildIndexer 3 [[], [⟨10, 20⟩, ⟨30, 40⟩], [⟨5, 15⟩, ⟨18, 25⟩, ⟨35, 45⟩]]).getNextLevelIndex 1 0
          (cmpInt 10 ((([[], [⟨10, 20⟩, ⟨30, 40⟩], [⟨5, 15⟩, ⟨18, 25⟩, ⟨35, 45⟩]] :
            List (List FileMeta)).getD 1 []).getD 0 default).smallest)
          (cmpInt 10 ((([[], [⟨10, 20⟩, ⟨30, 40⟩], [⟨5, 15⟩, ⟨18, 25⟩, ⟨35, 45⟩]] :
            List (List FileMeta)).getD 1 []).getD 0 default).largest)).2) :=
  ⟨by decide,
    C1_soundness_amended 3 [[], [⟨10, 20⟩, ⟨30, 40⟩], [⟨5, 15⟩, ⟨18, 25⟩, ⟨35, 45⟩]]
      (by decide) (by decide) 1 (by decide) (by decide) 0 (by decide) 10 (by decide)
      0 (by decide) (by decide) (by decide)⟩

theorem C2_builder_fields_witness :
    ((3 : Nat) ≤ 3 ∧
      (∀ l, l < 3 → 1 ≤ l →
        sortedDisjoint (([[], [⟨10, 20⟩], [⟨5, 15⟩]] :
          List (List FileMeta)).getD l [])) ∧
      (0 : Nat) < (([[], [⟨10, 20⟩], [⟨5, 15⟩]] :
        List (List FileMeta)).getD 1 []).length) ∧
    (IsLeastGe ((([[], [⟨10, 20⟩], [⟨5, 15⟩]] :
        List (List FileMeta)).getD 1 []).getD 0 default).smallest
      ((([[], [⟨10, 20⟩], [⟨5, 15⟩]] :
        List (List FileMeta)).getD 2 []).map FileMeta.largest)
      (((buildIndexer 3 [[], [⟨10, 20⟩], [⟨5, 15⟩]]).next_level_index.getD 1 []).getD 0
        default).smallest_lb ∧
    IsLeastGe ((([[], [⟨10, 20⟩], [⟨5, 15⟩]] :
        List (List FileMeta)).getD 1 []).getD 0 default).largest
      ((([[], [⟨10, 20⟩], [⟨5, 15⟩]] :
        List (List FileMeta)).getD 2 []).map FileMeta.largest)
      (((buildIndexer 3 [[], [⟨10, 20⟩], [⟨5, 15⟩]]).next_level_index.getD 1 []).getD 0
        default).largest_lb ∧
    IsGreatestLe ((([[], [⟨10, 20⟩], [⟨5, 15⟩]] :
        List (List FileMeta)).getD 1 []).getD 0 default).smallest
      ((([[], [⟨10, 20⟩], [⟨5, 15⟩]] :
        List (List FileMeta)).getD 2 []).map FileMeta.smallest)
      (((buildIndexer 3 [[], [⟨10, 20⟩], [⟨5, 15⟩]]).next_level_index.getD 1 []).getD 0
        default).smallest_rb ∧
    IsGreatestLe ((([[], [⟨10, 20⟩], [⟨5, 15⟩]] :
        List (List FileMeta)).getD 1 []).getD 0 default).largest
      ((([[], [⟨10, 20⟩], [⟨5, 15⟩]] :
        List (List FileMeta)).getD 2 []).map FileMeta.smallest)
      (((buildIndexer 3 [[], [⟨10, 20⟩], [⟨5, 15⟩]]).next_level_index.getD 1 []).getD 0
        default).largest_rb) :=
  ⟨by decide,
    C2_builder_fields 3 [[], [⟨10, 20⟩], [⟨5, 15⟩]] (by decide) (by decide)
      1 (by decide) (by decide) 0 (by decide)⟩

theorem C3_invariants_witness :
    ((3 : Nat) ≤ 3 ∧
      (∀ l, l < 3 → 1 ≤ l →
        sortedDisjoint (([[], [⟨10, 20⟩], [⟨5, 15⟩]] :
          List (List FileMeta)).getD l [])) ∧
      (0 : Nat) < (([[], [⟨10, 20⟩], [⟨5, 15⟩]] :
        List (List FileMeta)).getD 1 []).length) ∧
    (0 ≤ (((buildIndexer 3 [[], [⟨10, 20⟩], [⟨5, 15⟩]]).next_level_index.getD 1 []).getD 0
        default).smallest_lb ∧
    (((buildIndexer 3 [[], [⟨10, 20⟩], [⟨5, 15⟩]]).next_level_index.getD 1 []).getD 0
        default).smallest_lb ≤
      (((buildIndexer 3 [[], [⟨10, 20⟩], [⟨5, 15⟩]]).next_level_index.getD 1 []).getD 0
        default).smallest_rb + 1 ∧
    (((buildIndexer 3 [[], [⟨10, 20⟩], [⟨5, 15⟩]]).next_level_index.getD 1 []).getD 0
        default).smallest_rb ≤
      (((buildIndexer 3 [[], [⟨10, 20⟩], [⟨5, 15⟩]]).next_level_index.getD 1 []).getD 0
        default).largest_rb ∧
    (((buildIndexer 3 [[], [⟨10, 20⟩], [⟨5, 15⟩]]).next_level_index.getD 1 []).getD 0
        default).largest_lb ≤
      (buildIndexer 3 [[], [⟨10, 20⟩], [⟨5, 15⟩]]).level_rb.getD 2 (-1) + 1 ∧
    ((0 : Nat) + 1 < (([[], [⟨10, 20⟩], [⟨5, 15⟩]] :
        List (List FileMeta)).getD 1 []).length →
      (((buildIndexer 3 [[], [⟨10, 20⟩], [⟨5, 15⟩]]).next_level_index.getD 1 []).getD 0
          default).smallest_lb ≤
        (((buildIndexer 3 [[], [⟨10, 20⟩], [⟨5, 15⟩]]).next_level_index.getD 1 []).getD (0 + 1)
          default).smallest_lb ∧
      (((buildIndexer 3 [[], [⟨10, 20⟩], [⟨5, 15⟩]]).next_level_index.getD 1 []).getD 0
          default).largest_lb ≤
        (((buildIndexer 3 [[], [⟨10, 20⟩], [⟨5, 15⟩]]).next_level_index.getD 1 []).getD (0 + 1)
          default).largest_lb ∧
      (((buildIndexer 3 [[], [⟨10, 20⟩], [⟨5, 15⟩]]).next_level_index.getD 1 []).getD 0
          default).smallest_rb ≤
        (((buildIndexer 3 [[], [⟨10, 20⟩], [⟨5, 15⟩]]).next_level_index.getD 1 []).getD (0 + 1)
          default).smallest_rb ∧
      (((buildIndexer 3 [[], [⟨10, 20⟩], [⟨5, 15⟩]]).next_level_index.getD 1 []).getD 0
          default).largest_rb ≤
        (((buildIndexer 3 [[], [⟨10, 20⟩], [⟨5, 15⟩]]).next_level_index.getD 1 []).getD (0 + 1)
          default).largest_rb)) :=
  ⟨by decide,
    C3_invariants_amended 3 [[], [⟨10, 20⟩], [⟨5, 15⟩]] (by decide) (by decide)
      1 (by decide) (by decide) 0 (by decide)⟩

theorem C4_resolver_witness :
    ((3 : Nat) ≤ 3 ∧
      (∀ l, l < 3 → 1 ≤ l →
        sortedDisjoint (([[], [⟨10, 20⟩, ⟨30, 40⟩], [⟨5, 15⟩, ⟨18, 25⟩, ⟨35, 45⟩]] :
          List (List FileMeta)).getD l [])) ∧
      ((0 : Nat) : Int) ≤
        (buildIndexer 3 [[], [⟨10, 20⟩, ⟨30, 40⟩],
          [⟨5, 15⟩, ⟨18, 25⟩, ⟨35, 45⟩]]).level_rb.getD 1 (-1)) ∧
    (0 ≤ ((buildIndexer 3 [[], [⟨10, 20⟩, ⟨30, 40⟩],
        [⟨5, 15⟩, ⟨18, 25⟩, ⟨35, 45⟩]]).getNextLevelIndex 1 0
        (cmpInt 10 10) (cmpInt 10 20)).1 ∧
    ((buildIndexer 3 [[], [⟨10, 20⟩, ⟨30, 40⟩],
        [⟨5, 15⟩, ⟨18, 25⟩, ⟨35, 45⟩]]).getNextLevelIndex 1 0
        (cmpInt 10 10) (cmpInt 10 20)).1 ≤
      ((buildIndexer 3 [[], [⟨10, 20⟩, ⟨30, 40⟩],
        [⟨5, 15⟩, ⟨18, 25⟩, ⟨35, 45⟩]]).getNextLevelIndex 1 0
        (cmpInt 10 10) (cmpInt 10 20)).2 + 1 ∧
    ((buildIndexer 3 [[], [⟨10, 20⟩, ⟨30, 40⟩],
        [⟨5, 15⟩, ⟨18, 25⟩, ⟨35, 45⟩]]).getNextLevelIndex 1 0
        (cmpInt 10 10) (cmpInt 10 20)).2 ≤
      (buildIndexer 3 [[], [⟨10, 20⟩, ⟨30, 40⟩],
        [⟨5, 15⟩, ⟨18, 25⟩, ⟨35, 45⟩]]).level_rb.getD 2 (-1)) :=
  ⟨by decide,
    C4_resolver_post 3 [[], [⟨10, 20⟩, ⟨30, 40⟩], [⟨5, 15⟩, ⟨18, 25⟩, ⟨35, 45⟩]]
      (by decide) (by decide) 1 0 (by decide) (by decide) (by decide)
      (cmpInt 10 10) (cmpInt 10 20) 10 (by decide) (by decide)⟩

theorem C6_target_precedes_witness :
    ((3 : Nat) ≤ (buildIndexer 3 [[], [⟨10, 20⟩, ⟨30, 40⟩],
        [⟨5, 15⟩, ⟨18, 25⟩, ⟨35, 45⟩]]).num_levels ∧
      ((1 : Nat) : Int) ≤ (buildIndexer 3 [[], [⟨10, 20⟩, ⟨30, 40⟩],
        [⟨5, 15⟩, ⟨18, 25⟩, ⟨35, 45⟩]]).level_rb.getD 1 (-1) ∧
      (-1 : Int) < 0) ∧
    (buildIndexer 3 [[], [⟨10, 20⟩, ⟨30, 40⟩],
        [⟨5, 15⟩, ⟨18, 25⟩, ⟨35, 45⟩]]).getNextLevelIndex 1 1 (-1) (-1) =
      ((if 0 < (1 : Nat) then
          (((buildIndexer 3 [[], [⟨10, 20⟩, ⟨30, 40⟩],
            [⟨5, 15⟩, ⟨18, 25⟩, ⟨35, 45⟩]]).next_level_index.getD 1 []).getD (1 - 1)
            default).largest_lb
        else 0),
       (((buildIndexer 3 [[], [⟨10, 20⟩, ⟨30, 40⟩],
          [⟨5, 15⟩, ⟨18, 25⟩, ⟨35, 45⟩]]).next_level_index.getD 1 []).getD 1
          default).smallest_rb) :=
  ⟨by decide,
    C6_target_precedes (buildIndexer 3 [[], [⟨10, 20⟩, ⟨30, 40⟩],
        [⟨5, 15⟩, ⟨18, 25⟩, ⟨35, 45⟩]]) 1 1 (by decide) (by decide) (by decide)
      (by decide) (-1) (-1) (by decide)⟩

theorem C7_empty_level_witness :
    (((buildIndexer 3 [[], [⟨10, 20⟩, ⟨30, 40⟩],
        [⟨5, 15⟩, ⟨18, 25⟩, ⟨35, 45⟩]]).next_level_index.length =
      (buildIndexer 3 [[], [⟨10, 20⟩, ⟨30, 40⟩],
        [⟨5, 15⟩, ⟨18, 25⟩, ⟨35, 45⟩]]).num_levels ∧
      (3 : Nat) ≤ (buildIndexer 3 [[], [⟨10, 20⟩, ⟨30, 40⟩],
        [⟨5, 15⟩, ⟨18, 25⟩, ⟨35, 45⟩]]).num_levels) ∧
    ((([[], [], [⟨5, 15⟩]] : List (List FileMeta)).getD 1 [] = [] →
      ((buildIndexer 3 [[], [⟨10, 20⟩, ⟨30, 40⟩],
          [⟨5, 15⟩, ⟨18, 25⟩, ⟨35, 45⟩]]).clearIndex.updateIndex
        (some [[], [], [⟨5, 15⟩]])).levelIndexSize 1 = 0) ∧
    (([[], [], [⟨5, 15⟩]] : List (List FileMeta)).getD 1 [] ≠ [] →
      ((buildIndexer 3 [[], [⟨10, 20⟩, ⟨30, 40⟩],
          [⟨5, 15⟩, ⟨18, 25⟩, ⟨35, 45⟩]]).clearIndex.updateIndex
        (some [[], [], [⟨5, 15⟩]])).levelIndexSize 1 =
        (([[], [], [⟨5, 15⟩]] : List (List FileMeta)).getD 1 []).length))) :=
  ⟨by decide,
    C7_empty_level_amended (buildIndexer 3 [[], [⟨10, 20⟩, ⟨30, 40⟩],
        [⟨5, 15⟩, ⟨18, 25⟩, ⟨35, 45⟩]]) [[], [], [⟨5, 15⟩]]
      (by decide) (by decide) 1 (by decide) (by decide)⟩

theorem C9_clear_frame_witness :
    (∀ u, u < (buildIndexer 3 [[], [⟨10, 20⟩, ⟨30, 40⟩],
        [⟨5, 15⟩, ⟨18, 25⟩, ⟨35, 45⟩]]).num_levels → 1 ≤ u →
      (buildIndexer 3 [[], [⟨10, 20⟩, ⟨30, 40⟩],
        [⟨5, 15⟩, ⟨18, 25⟩, ⟨35, 45⟩]]).clearIndex.next_level_index.getD u [] = []) ∧
    (buildIndexer 3 [[], [⟨10, 20⟩, ⟨30, 40⟩],
        [⟨5, 15⟩, ⟨18, 25⟩, ⟨35, 45⟩]]).clearIndex.next_level_index.getD 0 [] =
      (buildIndexer 3 [[], [⟨10, 20⟩, ⟨30, 40⟩],
        [⟨5, 15⟩, ⟨18, 25⟩, ⟨35, 45⟩]]).next_level_index.getD 0 [] ∧
    (buildIndexer 3 [[], [⟨10, 20⟩, ⟨30, 40⟩],
        [⟨5, 15⟩, ⟨18, 25⟩, ⟨35, 45⟩]]).clearIndex.level_rb =
      (buildIndexer 3 [[], [⟨10, 20⟩, ⟨30, 40⟩],
        [⟨5, 15⟩, ⟨18, 25⟩, ⟨35, 45⟩]]).level_rb ∧
    (buildIndexer 3 [[], [⟨10, 20⟩, ⟨30, 40⟩],
        [⟨5, 15⟩, ⟨18, 25⟩, ⟨35, 45⟩]]).clearIndex.num_levels =
      (buildIndexer 3 [[], [⟨10, 20⟩, ⟨30, 40⟩],
        [⟨5, 15⟩, ⟨18, 25⟩, ⟨35, 45⟩]]).num_levels :=
  C9_clear_frame (buildIndexer 3 [[], [⟨10, 20⟩, ⟨30, 40⟩],
    [⟨5, 15⟩, ⟨18, 25⟩, ⟨35, 45⟩]])

theorem C10_full_overwrite_witness :
    (((buildIndexer 3 [[], [⟨0, 1⟩], [⟨2, 3⟩]]).num_levels = 3 ∧
      (FileIndexer.init 3).num_levels = 3 ∧
      (buildIndexer 3 [[], [⟨0, 1⟩], [⟨2, 3⟩]]).next_level_index.length = 3 ∧
      (FileIndexer.init 3).next_level_index.length = 3 ∧
      (([[], [⟨10, 20⟩, ⟨30, 40⟩], [⟨5, 15⟩, ⟨18, 25⟩, ⟨35, 45⟩]] :
        List (List FileMeta)).getD 1 []).length ≠ 0) ∧
    ((buildIndexer 3 [[], [⟨0, 1⟩], [⟨2, 3⟩]]).updateIndex
        (some [[], [⟨10, 20⟩, ⟨30, 40⟩], [⟨5, 15⟩, ⟨18, 25⟩, ⟨35, 45⟩]])).next_level_index.getD 1 [] =
      ((FileIndexer.init 3).updateIndex
        (some [[], [⟨10, 20⟩, ⟨30, 40⟩], [⟨5, 15⟩, ⟨18, 25⟩, ⟨35, 45⟩]])).next_level_index.getD 1 []) :=
  ⟨by decide,
    C10_full_overwrite 3 [[], [⟨10, 20⟩, ⟨30, 40⟩], [⟨5, 15⟩, ⟨18, 25⟩, ⟨35, 45⟩]]
      (buildIndexer 3 [[], [⟨0, 1⟩], [⟨2, 3⟩]]) (FileIndexer.init 3)
      (by decide) (by decide) (by decide) (by decide) (by decide)
      1 (by decide) (by decide) (by decide)⟩
